import Mathlib

/-!
# quickfix: the tag-value codec and the session registry

A shallow embedding of `tag_value.go` and `registry.go`.

* A Go byte slice is a `List Byte`, a byte being its unsigned value.
* A Go `int` is an `Int`.
* A run-time panic (index or slice bound out of range) is the `none` of an
  `Option`; a function that cannot panic returns its value directly.
* A method with a pointer receiver takes the receiver and returns the
  receiver it leaves behind next to the Go return value.
-/

namespace quickfix

/-! ## Go primitives used by the codec -/

/-- A byte of a Go byte slice, as its unsigned value. The theorems hold for
every natural number, and so for the values below 256 a byte takes. -/
abbrev Byte := Nat

/-- Tag is the Go type of the same name, an int. -/
abbrev Tag := Int

/-- The byte of the character that separates tag and value. -/
def sepByte : Byte := 61

/-- Index expression `s[i]` of Go; `none` is the panic on an index out of range. -/
def index (s : List Byte) (i : Int) : Option Byte :=
  if 0 ≤ i ∧ i < s.length then s[i.toNat]? else none

/-- Simple slice expression `s[low:high]` of Go; `none` is the panic on bounds
out of range. The capacity of `s` is at least its length and the code never
asks for a bound above the length, so the length stands for the capacity. -/
def slice (s : List Byte) (low high : Int) : Option (List Byte) :=
  if 0 ≤ low ∧ low ≤ high ∧ high ≤ s.length then
    some ((s.take high.toNat).drop low.toNat)
  else none

/-- Full slice expression `s[low:high:max]` of Go; `none` is the panic on
bounds out of range. As for `slice`, the length stands for the capacity. -/
def slice3 (s : List Byte) (low high max : Int) : Option (List Byte) :=
  if 0 ≤ low ∧ low ≤ high ∧ high ≤ max ∧ max ≤ s.length then
    some ((s.take high.toNat).drop low.toNat)
  else none

/-- Go's `bytes.IndexByte`: the index of the first instance of `c` in `b`,
or -1 if `c` is not present. -/
def IndexByte (b : List Byte) (c : Byte) : Int :=
  if b.indexOf c < b.length then (b.indexOf c : Int) else -1

/-- The digit loop of Go's `strconv` for base 10: the decimal digits of `u`
are put in front of `acc`, the least significant one first. `fuel` bounds the
number of divisions; `u` itself is always enough. -/
def formatBits : Nat → Nat → List Byte → List Byte
  | 0, u, acc => (u % 10 + 48) :: acc
  | fuel + 1, u, acc =>
    if 10 ≤ u then formatBits fuel (u / 10) ((u % 10 + 48) :: acc)
    else (u + 48) :: acc

/-- Go's `strconv.AppendInt(dst, i, 10)`: `dst` followed by the decimal form
of `i`, with a leading minus sign when `i` is negative. -/
def AppendInt (dst : List Byte) (i : Int) : List Byte :=
  if i < 0 then dst ++ 45 :: formatBits i.natAbs i.natAbs []
  else dst ++ formatBits i.natAbs i.natAbs []

/-! ## tag_value.go -/

/-- TagValue is a low-level FIX field abstraction. -/
structure TagValue where
  tag : Tag
  value : List Byte
  bytes : List Byte
deriving DecidableEq

/-- The errors `parse` returns, one constructor for each `fmt.Errorf` of the
source: "tagValue.Parse: No '=' in '%s'" and "tagValue.Parse: No tag in '%s'"
with the raw field, and "tagValue.Parse: %s" with the text of the error of
`atoi`. -/
inductive ParseError where
  | noSeparator (rawFieldBytes : List Byte)
  | noTag (rawFieldBytes : List Byte)
  | badTag (text : String)
deriving DecidableEq

/-- The type of `atoi`, the integer parser `parse` calls on the bytes of the
tag: it returns an int or an error, given here by its text. -/
abbrev Atoi := List Byte → Except String Int

/-- The one byte of the string literal that `init` appends last: the literal
holds the raw byte 1 between its quotes, the FIX field delimiter SOH, which
does not show when the source is printed. -/
def sohByte : Byte := 1

/-- TagValue.init: the receiver after `tv.init(tag, value)`. -/
def TagValue.init (_tv : TagValue) (tag : Tag) (value : List Byte) : TagValue :=
  let bytes := AppendInt [] tag
  let bytes := bytes ++ [sepByte]
  let bytes := bytes ++ value
  let bytes := bytes ++ [sohByte]
  { tag := tag, value := value, bytes := bytes }

/-- The code of `parse` from the label PARSE on, `sepIndex` being set. The
result is the receiver and the returned error (`none` for nil); the outer
`none` is a panic. -/
def TagValue.parseAt (atoi : Atoi) (tv : TagValue) (rawFieldBytes : List Byte)
    (sepIndex : Int) : Option (TagValue × Option ParseError) :=
  (slice rawFieldBytes 0 sepIndex).bind fun tagBytes =>
    match atoi tagBytes with
    | .error text => some (tv, some (.badTag text))
    | .ok parsedTag =>
      let n : Int := rawFieldBytes.length
      (slice3 rawFieldBytes (sepIndex + 1) (n - 1) (n - 1)).bind fun value =>
        (slice3 rawFieldBytes 0 n n).bind fun bytes =>
          some ({ tag := parsedTag, value := value, bytes := bytes }, none)

/-- The code of `parse` from `bytes.IndexByte` on: the full scan and its two
error cases, then PARSE. -/
def TagValue.parseScan (atoi : Atoi) (tv : TagValue) (rawFieldBytes : List Byte) :
    Option (TagValue × Option ParseError) :=
  let sepIndex := IndexByte rawFieldBytes sepByte
  if sepIndex = -1 then some (tv, some (.noSeparator rawFieldBytes))
  else if sepIndex = 0 then some (tv, some (.noTag rawFieldBytes))
  else TagValue.parseAt atoi tv rawFieldBytes sepIndex

/-- TagValue.parse: the receiver after `tv.parse(rawFieldBytes)` and the
returned error (`none` for nil); the outer `none` is a panic. -/
def TagValue.parse (atoi : Atoi) (tv : TagValue) (rawFieldBytes : List Byte) :
    Option (TagValue × Option ParseError) :=
  if 5 ≤ rawFieldBytes.length then
    (index rawFieldBytes 1).bind fun b1 =>
      if b1 = sepByte then TagValue.parseAt atoi tv rawFieldBytes 1
      else (index rawFieldBytes 2).bind fun b2 =>
        if b2 = sepByte then TagValue.parseAt atoi tv rawFieldBytes 2
        else (index rawFieldBytes 3).bind fun b3 =>
          if b3 = sepByte then TagValue.parseAt atoi tv rawFieldBytes 3
          else (index rawFieldBytes 4).bind fun b4 =>
            if b4 = sepByte then TagValue.parseAt atoi tv rawFieldBytes 4
            else TagValue.parseScan atoi tv rawFieldBytes
  else TagValue.parseScan atoi tv rawFieldBytes

/-- TagValue.String: the stored wire bytes, as the bytes of the Go string. -/
def TagValue.String (tv : TagValue) : List Byte := tv.bytes

/-- TagValue.Value: the value bytes, as the bytes of the Go string. -/
def TagValue.Value (tv : TagValue) : List Byte := tv.value

/-- TagValue.Tag. -/
def TagValue.Tag (tv : TagValue) : Tag := tv.tag

/-- TagValue.total: the loop that adds up the bytes of the wire form. -/
def TagValue.total (tv : TagValue) : Int :=
  tv.bytes.foldl (fun (total : Int) (b : Byte) => total + (b : Int)) 0

/-- TagValue.length. -/
def TagValue.length (tv : TagValue) : Int := tv.bytes.length

/-- Modelled from the spec: the value of a run of decimal digits read after
the value `n`, `none` on a byte that is not a decimal digit. It is the digit
loop of `atoi`, whose source is not among the files. -/
def decimalValue : List Byte → Nat → Option Nat
  | [], n => some n
  | dec :: rest, n =>
    if dec < 48 ∨ 57 < dec then none else decimalValue rest (n * 10 + (dec - 48))

/-- Modelled from the spec: `atoi`, whose source is not among the files. The
spec has the bytes before the separator parsed "as a non-negative integer
tag", an error being returned "if not a valid integer", the tag being "a
positive decimal integer with no leading +/sign": a non-empty run of decimal
digits gives its value, anything else an error. The text of the error is not
fixed by the spec. -/
def atoi : Atoi := fun d =>
  match d with
  | [] => .error "invalid format"
  | _ :: _ =>
    match decimalValue d 0 with
    | some n => .ok (n : Int)
    | none => .error "invalid format"

/-! ## registry.go -/

/-- Modelled from the spec: SessionID, whose declaration is not among the
files. The spec gives it five text fields and structural equality over all
five; it is the key of the session directory. -/
structure SessionID where
  BeginString : String
  SenderCompID : String
  SenderSubID : String
  TargetCompID : String
  TargetSubID : String
deriving DecidableEq

/-- A `*session` as the registry sees it: the address that tells one session
object from another, and the `sessionID` field read through the pointer. -/
structure session where
  addr : Nat
  sessionID : SessionID
deriving DecidableEq

/-- A Go error value: the two package variables made with `errors.New`, and
any other error (of a header read, of a session operation), given by its text. -/
inductive GoError where
  | duplicateSessionID
  | unknownSession
  | other (text : String)
deriving DecidableEq

/-- The package variable errDuplicateSessionID. -/
def errDuplicateSessionID : GoError := .duplicateSessionID

/-- The package variable errUnknownSession. -/
def errUnknownSession : GoError := .unknownSession

/-- The package variable `sessions`, a Go map from SessionID to `*session`:
`none` at a key is the absence of an entry. The lock that guards the map is
not part of this sequential model. -/
abbrev Sessions := SessionID → Option session

/-- The map `make` returns: no entry. -/
def Sessions.empty : Sessions := fun _ => none

/-- lookupSession: `some s` is the pair `(s, true)`, `none` is `(nil, false)`. -/
def lookupSession (sessions : Sessions) (sessionID : SessionID) : Option session :=
  sessions sessionID

/-- registerSession: the map it leaves and the returned error (`none` for nil). -/
def registerSession (sessions : Sessions) (s : session) : Sessions × Option GoError :=
  match sessions s.sessionID with
  | some _ => (sessions, some errDuplicateSessionID)
  | none => (Function.update sessions s.sessionID (some s), none)

/-- UnregisterSession: the map it leaves and the returned error (`none` for nil). -/
def UnregisterSession (sessions : Sessions) (sessionID : SessionID) :
    Sessions × Option GoError :=
  match sessions sessionID with
  | some _ => (Function.update sessions sessionID none, none)
  | none => (sessions, some errUnknownSession)

/-- Modelled from the spec: the header of a message, whose source is not among
the files. The spec gives it one operation, "get field by tag into typed
holder", that "fails if the tag is absent or malformed": a header is what
that read gives for each tag, the text of the field or the error. -/
structure Header where
  fields : Tag → Except GoError String

/-- Modelled from the spec: `Header.GetField(tag, &holder)`: the holder after
the call and the returned error. A read that fails leaves the holder as it was. -/
def Header.GetField (h : Header) (tag : Tag) (holder : String) : String × Option GoError :=
  match h.fields tag with
  | .ok v => (v, none)
  | .error e => (holder, some e)

/-- A message as the registry sees it: the header it reads, and the rest. -/
structure Message where
  Header : Header
  Body : List Byte

/-- Messagable is a Message or something that can be converted to a Message. -/
structure Messagable where
  ToMessage : Message

/-- Modelled from the spec: a Message is itself a Messagable (`Send` passes
one to `SendToTarget`); its `ToMessage`, not among the files, gives the
message itself. -/
def Message.asMessagable (msg : Message) : Messagable := ⟨msg⟩

/-- A MessageRejectError, by its text and reject reason. -/
structure MessageRejectError where
  text : String
  reason : Int
deriving DecidableEq

/-- Modelled from the spec: the numeric identifiers of the five header tags
`Send` reads; their declarations are not among the files. No theorem depends
on the numbers. -/
def tagBeginString : Tag := 8

/-- See `tagBeginString`. -/
def tagSenderCompID : Tag := 49

/-- See `tagBeginString`. -/
def tagSenderSubID : Tag := 50

/-- See `tagBeginString`. -/
def tagTargetCompID : Tag := 56

/-- See `tagBeginString`. -/
def tagTargetSubID : Tag := 57

/-- The two operations of the session collaborator, external to the registry:
each acts on the sessions' own state `σ` and returns an error or nil. They
are parameters of the routing functions; the directory is a variable of the
registry that they do not write. -/
structure SessionOps (σ : Type) where
  queueForSend : session → Message → σ → σ × Option GoError
  doReject : session → Message → MessageRejectError → σ → σ × Option GoError

/-- One invocation of a session operation, with its arguments. -/
inductive Call where
  | queueForSend (s : session) (msg : Message)
  | doReject (s : session) (msg : Message) (rej : MessageRejectError)

/-- The state the routing functions run in: the directory, the sessions' own
state, and the session operations invoked so far, oldest first. -/
structure State (σ : Type) where
  sessions : Sessions
  ext : σ
  calls : List Call

/-- The call `s.queueForSend(msg)`: the operation runs on the sessions' own
state and the invocation is recorded. -/
def session.queueForSend {σ : Type} (ops : SessionOps σ) (s : session) (msg : Message)
    (st : State σ) : State σ × Option GoError :=
  let r := ops.queueForSend s msg st.ext
  ({ st with ext := r.1, calls := st.calls ++ [Call.queueForSend s msg] }, r.2)

/-- The call `s.doReject(m, rej)`: the operation runs on the sessions' own
state and the invocation is recorded. -/
def session.doReject {σ : Type} (ops : SessionOps σ) (s : session) (msg : Message)
    (rej : MessageRejectError) (st : State σ) : State σ × Option GoError :=
  let r := ops.doReject s msg rej st.ext
  ({ st with ext := r.1, calls := st.calls ++ [Call.doReject s msg rej] }, r.2)

/-- SendToTarget sends a message based on the sessionID. -/
def SendToTarget {σ : Type} (ops : SessionOps σ) (m : Messagable) (sessionID : SessionID)
    (st : State σ) : State σ × Option GoError :=
  let msg := m.ToMessage
  match lookupSession st.sessions sessionID with
  | none => (st, some errUnknownSession)
  | some session => session.queueForSend ops msg st

/-- SendReject is a helper function which allows to send an error outside of
the quickfix application methods. -/
def SendReject {σ : Type} (ops : SessionOps σ) (m : Message) (sessionID : SessionID)
    (rej : MessageRejectError) (st : State σ) : State σ × Option GoError :=
  match lookupSession st.sessions sessionID with
  | none => (st, some errUnknownSession)
  | some session => session.doReject ops m rej st

/-- Send determines the session to send Messagable using header fields
BeginString, TargetCompID, SenderCompID. -/
def Send {σ : Type} (ops : SessionOps σ) (m : Messagable) (st : State σ) :
    State σ × Option GoError :=
  let msg := m.ToMessage
  let beginString := msg.Header.GetField tagBeginString ""
  match beginString.2 with
  | some err => (st, some err)
  | none =>
    let targetCompID := msg.Header.GetField tagTargetCompID ""
    match targetCompID.2 with
    | some err => (st, some err)
    | none =>
      let targetSubID := msg.Header.GetField tagTargetSubID ""
      let senderCompID := msg.Header.GetField tagSenderCompID ""
      match senderCompID.2 with
      | some _ => (st, none)
      | none =>
        let senderSubID := msg.Header.GetField tagSenderSubID ""
        let sessionID : SessionID :=
          { BeginString := beginString.1
            TargetCompID := targetCompID.1
            TargetSubID := targetSubID.1
            SenderCompID := senderCompID.1
            SenderSubID := senderSubID.1 }
        SendToTarget ops msg.asMessagable sessionID st

/-- The text a header gives for a tag, the empty string when the read fails:
what an optional read of `Send` leaves in a holder that starts empty. -/
def Header.textOrEmpty (h : Header) (tag : Tag) : String :=
  match h.fields tag with
  | .ok v => v
  | .error _ => ""

/-- A header with BeginString "FIX.4.2", TargetCompID "TARGET" and SenderCompID
"SENDER", and no other field. -/
def routedHeader : Header where
  fields := fun tag =>
    if tag = tagBeginString then .ok "FIX.4.2"
    else if tag = tagTargetCompID then .ok "TARGET"
    else if tag = tagSenderCompID then .ok "SENDER"
    else .error (.other "field not found")

/-- A message with the header `routedHeader`. -/
def routedMessage : Message := { Header := routedHeader, Body := [] }

/-- The identity `routedMessage` routes to. -/
def routedID : SessionID :=
  { BeginString := "FIX.4.2", SenderCompID := "SENDER", SenderSubID := "",
    TargetCompID := "TARGET", TargetSubID := "" }

/-- Session operations that count their invocations and return nil. -/
def countingOps : SessionOps Nat where
  queueForSend := fun _ _ n => (n + 1, none)
  doReject := fun _ _ _ n => (n + 1, none)

/-- A header with BeginString "FIX.4.2" and TargetCompID "TARGET" and no
SenderCompID. -/
def senderlessHeader : Header where
  fields := fun tag =>
    if tag = tagBeginString then .ok "FIX.4.2"
    else if tag = tagTargetCompID then .ok "TARGET"
    else .error (.other "field not found")

/-- A message with the header `senderlessHeader`. -/
def senderlessMessage : Message := { Header := senderlessHeader, Body := [] }

/-- A header with SenderCompID "SENDER" only. -/
def bareHeader : Header where
  fields := fun tag =>
    if tag = tagSenderCompID then .ok "SENDER"
    else if tag = tagBeginString then .error (.other "BeginString not found")
    else .error (.other "field not found")

/-- A message with the header `bareHeader`. -/
def bareMessage : Message := { Header := bareHeader, Body := [] }

/-- A header with BeginString "FIX.4.2" and SenderCompID "SENDER" and no
TargetCompID. -/
def targetlessHeader : Header where
  fields := fun tag =>
    if tag = tagBeginString then .ok "FIX.4.2"
    else if tag = tagSenderCompID then .ok "SENDER"
    else if tag = tagTargetCompID then .error (.other "TargetCompID not found")
    else .error (.other "field not found")

/-- A message with the header `targetlessHeader`. -/
def targetlessMessage : Message := { Header := targetlessHeader, Body := [] }

/-- Session operations that count their invocations and return an error. -/
def failingOps : SessionOps Nat where
  queueForSend := fun _ _ n => (n + 1, some (.other "queue full"))
  doReject := fun _ _ _ n => (n + 1, some (.other "reject failed"))

/-- The reference parser of the refinement claim, after the words of the
claim: no check of positions 1 to 4; the separator is always the index of the
first '=' found by a full scan. No '=' gives the "No '=' in" error, a first
'=' at index 0 the "No tag" error; otherwise the bytes before it go to
`atoi`, the value is what lies between it and the last byte, and the wire
bytes are the whole input. As in `parse`, a first '=' that is the last byte
leaves no room for the value and is a panic. -/
def TagValue.parseReference (atoi : Atoi) (tv : TagValue) (rawFieldBytes : List Byte) :
    Option (TagValue × Option ParseError) :=
  let i := rawFieldBytes.indexOf sepByte
  if i = rawFieldBytes.length then some (tv, some (.noSeparator rawFieldBytes))
  else if i = 0 then some (tv, some (.noTag rawFieldBytes))
  else
    match atoi (rawFieldBytes.take i) with
    | .error text => some (tv, some (.badTag text))
    | .ok parsedTag =>
      if i + 1 = rawFieldBytes.length then none
      else
        some ({ tag := parsedTag
                value := (rawFieldBytes.drop (i + 1)).dropLast
                bytes := rawFieldBytes }, none)

/-- A valid non-negative decimal integer, as bytes: a run of decimal digits
that is not empty, with no sign and no other byte. -/
def isDecimal (d : List Byte) : Prop :=
  d ≠ [] ∧ ∀ b ∈ d, 48 ≤ b ∧ b ≤ 57

instance (d : List Byte) : Decidable (isDecimal d) := by
  unfold isDecimal
  infer_instance

/-- The decimal value of a run of digits, the most significant one first. -/
def decimalOf (d : List Byte) : Nat :=
  Nat.ofDigits 10 (d.reverse.map fun b => b - 48)

/-- Modelled from the spec: the contract of `atoi`, whose source is not among
the files, as the decimal integer parser of the tag: a valid non-negative
decimal integer gives its value, anything else ("not a valid integer", a
sign included) an error. -/
def DecimalAtoi (atoi : Atoi) : Prop :=
  ∀ d, (isDecimal d → atoi d = .ok (decimalOf d : Int)) ∧
    (¬ isDecimal d → ∃ text, atoi d = .error text)

/-- One call on the directory: `registerSession(s)` or `UnregisterSession(id)`. -/
inductive DirectoryCall where
  | register (s : session)
  | unregister (sessionID : SessionID)

/-- The directory one call leaves, its returned error put aside. -/
def DirectoryCall.run (sessions : Sessions) : DirectoryCall → Sessions
  | .register s => (registerSession sessions s).1
  | .unregister sessionID => (UnregisterSession sessions sessionID).1

/-- The directory reached from the empty one by a sequence of calls, oldest first. -/
def reached (calls : List DirectoryCall) : Sessions :=
  calls.foldl DirectoryCall.run Sessions.empty

/-- Each entry of the directory is stored under the identity of its session. -/
def KeyedByIdentity (D : Sessions) : Prop :=
  ∀ k s, lookupSession D k = some s → s.sessionID = k

/-! ## Lemmas on the Go primitives -/

theorem index_eq_getElem? (s : List Byte) (i : Nat) (h : i < s.length) :
    index s (i : Int) = s[i]? := by
  unfold index
  have h2 : (0 : Int) ≤ (i : Int) ∧ (i : Int) < (s.length : Int) := by omega
  rw [if_pos h2]
  simp

theorem slice_take (s : List Byte) (k : Nat) (h : k ≤ s.length) :
    slice s 0 (k : Int) = some (s.take k) := by
  unfold slice
  have h2 : (0 : Int) ≤ 0 ∧ (0 : Int) ≤ (k : Int) ∧ (k : Int) ≤ (s.length : Int) := by omega
  rw [if_pos h2]
  simp

theorem slice3_whole (s : List Byte) :
    slice3 s 0 (s.length : Int) (s.length : Int) = some s := by
  unfold slice3
  have h2 : (0 : Int) ≤ 0 ∧ (0 : Int) ≤ (s.length : Int) ∧
      (s.length : Int) ≤ (s.length : Int) ∧ (s.length : Int) ≤ (s.length : Int) := by omega
  rw [if_pos h2]
  simp

theorem slice3_value (s : List Byte) (k : Nat) :
    slice3 s ((k : Int) + 1) ((s.length : Int) - 1) ((s.length : Int) - 1) =
      if k + 2 ≤ s.length then some ((s.take (s.length - 1)).drop (k + 1)) else none := by
  unfold slice3
  by_cases h : k + 2 ≤ s.length
  · have h2 : (0 : Int) ≤ (k : Int) + 1 ∧ (k : Int) + 1 ≤ (s.length : Int) - 1 ∧
        (s.length : Int) - 1 ≤ (s.length : Int) - 1 ∧
        (s.length : Int) - 1 ≤ (s.length : Int) := by omega
    rw [if_pos h2, if_pos h]
    have e1 : ((s.length : Int) - 1).toNat = s.length - 1 := by omega
    have e2 : ((k : Int) + 1).toNat = k + 1 := by omega
    rw [e1, e2]
  · have h2 : ¬ ((0 : Int) ≤ (k : Int) + 1 ∧ (k : Int) + 1 ≤ (s.length : Int) - 1 ∧
        (s.length : Int) - 1 ≤ (s.length : Int) - 1 ∧
        (s.length : Int) - 1 ≤ (s.length : Int)) := by omega
    rw [if_neg h2, if_neg h]

/-- What PARSE does once the separator index is known to lie in the slice. -/
theorem parseAt_eq (atoi : Atoi) (tv : TagValue) (raw : List Byte) (k : Nat)
    (hk : k < raw.length) :
    TagValue.parseAt atoi tv raw (k : Int) =
      match atoi (raw.take k) with
      | .error text => some (tv, some (.badTag text))
      | .ok parsedTag =>
        if k + 2 ≤ raw.length then
          some ({ tag := parsedTag, value := (raw.take (raw.length - 1)).drop (k + 1),
                  bytes := raw }, none)
        else none := by
  unfold TagValue.parseAt
  rw [slice_take raw k (by omega)]
  simp only [Option.some_bind]
  cases atoi (raw.take k) with
  | error text => rfl
  | ok parsedTag =>
    simp only [slice3_value, slice3_whole]
    split <;> simp

/-- The first position of `c`, given as a position that holds `c` with none
before it, is what `indexOf` returns. -/
theorem indexOf_of_first (c : Byte) : ∀ (raw : List Byte) (i : Nat),
    raw[i]? = some c → (∀ j, j < i → raw[j]? ≠ some c) →
    raw.indexOf c = i ∧ i < raw.length
  | [], i, hsep, _ => by simp at hsep
  | b :: rest, 0, hsep, _ => by
    simp only [List.getElem?_cons_zero, Option.some.injEq] at hsep
    subst hsep
    simp
  | b :: rest, i + 1, hsep, hfirst => by
    have hb : b ≠ c := by
      intro hbc
      exact hfirst 0 (by omega) (by simp [hbc])
    have ih := indexOf_of_first c rest i (by simpa using hsep)
      (fun j hj => by simpa using hfirst (j + 1) (by omega))
    rw [List.indexOf_cons_ne rest hb]
    simp only [List.length_cons]
    omega

theorem IndexByte_of_first (c : Byte) (raw : List Byte) (i : Nat)
    (hsep : raw[i]? = some c) (hfirst : ∀ j, j < i → raw[j]? ≠ some c) :
    IndexByte raw c = (i : Int) := by
  obtain ⟨h1, h2⟩ := indexOf_of_first c raw i hsep hfirst
  unfold IndexByte
  rw [h1, if_pos h2]

theorem IndexByte_of_not_mem (c : Byte) (raw : List Byte) (h : c ∉ raw) :
    IndexByte raw c = -1 := by
  unfold IndexByte
  have h1 : raw.indexOf c = raw.length := List.indexOf_eq_length.mpr h
  rw [h1, if_neg (by omega)]

/-- The scan path, when the first separator is at `i ≥ 1`, goes to PARSE with `i`. -/
theorem parseScan_of_first (atoi : Atoi) (tv : TagValue) (raw : List Byte) (i : Nat)
    (hi : 1 ≤ i) (hsep : raw[i]? = some sepByte)
    (hfirst : ∀ j, j < i → raw[j]? ≠ some sepByte) :
    TagValue.parseScan atoi tv raw = TagValue.parseAt atoi tv raw (i : Int) := by
  unfold TagValue.parseScan
  simp only [IndexByte_of_first sepByte raw i hsep hfirst]
  rw [if_neg (by omega), if_neg (by omega)]

/-- The fast path of `parse`, spelled out on a slice of five bytes or more. -/
theorem parse_cons5 (atoi : Atoi) (tv : TagValue) (a b c d e : Byte) (rest : List Byte) :
    TagValue.parse atoi tv (a :: b :: c :: d :: e :: rest) =
      if b = sepByte then TagValue.parseAt atoi tv (a :: b :: c :: d :: e :: rest) 1
      else if c = sepByte then TagValue.parseAt atoi tv (a :: b :: c :: d :: e :: rest) 2
      else if d = sepByte then TagValue.parseAt atoi tv (a :: b :: c :: d :: e :: rest) 3
      else if e = sepByte then TagValue.parseAt atoi tv (a :: b :: c :: d :: e :: rest) 4
      else TagValue.parseScan atoi tv (a :: b :: c :: d :: e :: rest) := by
  unfold TagValue.parse
  have h5 : 5 ≤ (a :: b :: c :: d :: e :: rest).length := by simp
  rw [if_pos h5]
  have i1 := index_eq_getElem? (a :: b :: c :: d :: e :: rest) 1 (by simp)
  have i2 := index_eq_getElem? (a :: b :: c :: d :: e :: rest) 2 (by simp)
  have i3 := index_eq_getElem? (a :: b :: c :: d :: e :: rest) 3 (by simp)
  have i4 := index_eq_getElem? (a :: b :: c :: d :: e :: rest) 4 (by simp)
  simp only [Nat.cast_ofNat, Nat.cast_one] at i1 i2 i3 i4
  rw [i1, i2, i3, i4]
  simp only [List.getElem?_cons_succ, List.getElem?_cons_zero, Option.some_bind]

/-- A slice shorter than five bytes takes the scan path. -/
theorem parse_short (atoi : Atoi) (tv : TagValue) (raw : List Byte) (h : raw.length < 5) :
    TagValue.parse atoi tv raw = TagValue.parseScan atoi tv raw := by
  unfold TagValue.parse
  rw [if_neg (by omega)]

/-- Whatever the path, when the first separator is at `i ≥ 1`, `parse` goes to
PARSE with `i`. -/
theorem parse_of_first (atoi : Atoi) (tv : TagValue) (raw : List Byte) (i : Nat)
    (hi : 1 ≤ i) (hsep : raw[i]? = some sepByte)
    (hfirst : ∀ j, j < i → raw[j]? ≠ some sepByte) :
    TagValue.parse atoi tv raw = TagValue.parseAt atoi tv raw (i : Int) := by
  by_cases hlen : raw.length < 5
  · rw [parse_short atoi tv raw hlen]
    exact parseScan_of_first atoi tv raw i hi hsep hfirst
  · match raw, hlen, hsep, hfirst with
    | a :: b :: c :: d :: e :: rest, _, hsep, hfirst =>
      rw [parse_cons5]
      have h1 := hfirst 1
      have h2 := hfirst 2
      have h3 := hfirst 3
      have h4 := hfirst 4
      simp only [List.getElem?_cons_succ, List.getElem?_cons_zero, ne_eq,
        Option.some.injEq] at h1 h2 h3 h4
      by_cases hb : b = sepByte
      · have : i = 1 := by
          by_contra hne
          exact h1 (by omega) hb
        subst this
        rw [if_pos hb]
        rfl
      · rw [if_neg hb]
        by_cases hc : c = sepByte
        · have : i = 2 := by
            by_contra hne
            have : i ≠ 1 := by
              rintro rfl
              simp at hsep
              exact hb hsep
            exact h2 (by omega) hc
          subst this
          rw [if_pos hc]
          rfl
        · rw [if_neg hc]
          by_cases hd : d = sepByte
          · have : i = 3 := by
              by_contra hne
              have : i ≠ 1 := by
                rintro rfl
                simp at hsep
                exact hb hsep
              have : i ≠ 2 := by
                rintro rfl
                simp at hsep
                exact hc hsep
              exact h3 (by omega) hd
            subst this
            rw [if_pos hd]
            rfl
          · rw [if_neg hd]
            by_cases he : e = sepByte
            · have : i = 4 := by
                by_contra hne
                have : i ≠ 1 := by
                  rintro rfl
                  simp at hsep
                  exact hb hsep
                have : i ≠ 2 := by
                  rintro rfl
                  simp at hsep
                  exact hc hsep
                have : i ≠ 3 := by
                  rintro rfl
                  simp at hsep
                  exact hd hsep
                exact h4 (by omega) he
              subst this
              rw [if_pos he]
              rfl
            · rw [if_neg he]
              exact parseScan_of_first atoi tv _ i hi hsep hfirst
    | [], h, _, _ => simp at h
    | [_], h, _, _ => simp at h
    | [_, _], h, _, _ => simp at h
    | [_, _, _], h, _, _ => simp at h
    | [_, _, _, _], h, _, _ => simp at h

/-- The scan path either returns one of its two errors or goes to PARSE with
the position of a separator that is not the first byte. -/
theorem parseScan_outcome (atoi : Atoi) (tv : TagValue) (raw : List Byte) :
    (∃ e, TagValue.parseScan atoi tv raw = some (tv, some e)) ∨
    ∃ k : Nat, 1 ≤ k ∧ raw[k]? = some sepByte ∧
      TagValue.parseScan atoi tv raw = TagValue.parseAt atoi tv raw (k : Int) := by
  unfold TagValue.parseScan IndexByte
  by_cases h : raw.indexOf sepByte < raw.length
  · simp only [if_pos h]
    by_cases h0 : raw.indexOf sepByte = 0
    · left
      refine ⟨.noTag raw, ?_⟩
      rw [if_neg (by omega), if_pos (by omega)]
    · right
      refine ⟨raw.indexOf sepByte, by omega, ?_, ?_⟩
      · rw [List.getElem?_eq_getElem h, List.getElem_indexOf h]
      · rw [if_neg (by omega), if_neg (by omega)]
  · left
    refine ⟨.noSeparator raw, ?_⟩
    simp only [if_neg h]
    rfl

/-- The outcome of `parse`: an error with the receiver as it was, or what PARSE
gives at the position of a separator that is not the first byte. -/
theorem parse_outcome (atoi : Atoi) (tv : TagValue) (raw : List Byte) :
    (∃ e, TagValue.parse atoi tv raw = some (tv, some e)) ∨
    ∃ k : Nat, 1 ≤ k ∧ raw[k]? = some sepByte ∧
      TagValue.parse atoi tv raw = TagValue.parseAt atoi tv raw (k : Int) := by
  by_cases hlen : raw.length < 5
  · rw [parse_short atoi tv raw hlen]
    exact parseScan_outcome atoi tv raw
  · match raw, hlen with
    | a :: b :: c :: d :: e :: rest, _ =>
      rw [parse_cons5]
      by_cases hb : b = sepByte
      · exact Or.inr ⟨1, by omega, by simp [hb], by rw [if_pos hb]; rfl⟩
      · rw [if_neg hb]
        by_cases hc : c = sepByte
        · exact Or.inr ⟨2, by omega, by simp [hc], by rw [if_pos hc]; rfl⟩
        · rw [if_neg hc]
          by_cases hd : d = sepByte
          · exact Or.inr ⟨3, by omega, by simp [hd], by rw [if_pos hd]; rfl⟩
          · rw [if_neg hd]
            by_cases he : e = sepByte
            · exact Or.inr ⟨4, by omega, by simp [he], by rw [if_pos he]; rfl⟩
            · rw [if_neg he]
              exact parseScan_outcome atoi tv _
    | [], h => simp at h
    | [_], h => simp at h
    | [_, _], h => simp at h
    | [_, _, _], h => simp at h
    | [_, _, _, _], h => simp at h

/-- A successful PARSE stores the whole input as the wire bytes and the bytes
between the separator and the last byte as the value. -/
theorem parseAt_success (atoi : Atoi) (tv tv' : TagValue) (raw : List Byte) (k : Nat)
    (hk : k < raw.length)
    (hok : TagValue.parseAt atoi tv raw (k : Int) = some (tv', none)) :
    k + 2 ≤ raw.length ∧ tv'.bytes = raw ∧
      tv'.value = (raw.take (raw.length - 1)).drop (k + 1) ∧
      atoi (raw.take k) = .ok tv'.tag := by
  rw [parseAt_eq atoi tv raw k hk] at hok
  cases hat : atoi (raw.take k) with
  | error text => rw [hat] at hok; simp at hok
  | ok parsedTag =>
    rw [hat] at hok
    by_cases h2 : k + 2 ≤ raw.length
    · simp only [if_pos h2, Option.some.injEq, Prod.mk.injEq, and_true] at hok
      subst hok
      exact ⟨h2, rfl, rfl, rfl⟩
    · simp [if_neg h2] at hok

/-! ## The codec: theorems -/

/-- C1. For every byte slice `raw` on which `parse` succeeds, `String()` of
the resulting TagValue is byte for byte `raw`, its final byte included. -/
theorem parse_String_roundtrip (atoi : Atoi) (tv tv' : TagValue) (raw : List Byte)
    (hok : TagValue.parse atoi tv raw = some (tv', none)) :
    tv'.String = raw := by
  rcases parse_outcome atoi tv raw with ⟨e, he⟩ | ⟨k, _, hsep, hk⟩
  · rw [he] at hok
    simp at hok
  · rw [hk] at hok
    have hlt : k < raw.length := (List.getElem?_eq_some.mp hsep).1
    exact (parseAt_success atoi tv tv' raw k hlt hok).2.1

/-- The field "35=A" with the delimiter byte 1 parses, and its wire form is
the input. -/
theorem parse_String_roundtrip_witness :
    TagValue.parse atoi ⟨0, [], []⟩ [51, 53, 61, 65, 1] =
        some (⟨35, [65], [51, 53, 61, 65, 1]⟩, none) ∧
      TagValue.String ⟨35, [65], [51, 53, 61, 65, 1]⟩ = [51, 53, 61, 65, 1] :=
  ⟨by decide, parse_String_roundtrip atoi ⟨0, [], []⟩ _ [51, 53, 61, 65, 1] (by decide)⟩

theorem digitChar_toNat (d : Nat) (h : d < 10) : (Nat.digitChar d).toNat = d + 48 := by
  interval_cases d <;> rfl

/-- The digit loop agrees with the digit loop of Lean's own decimal printer. -/
theorem formatBits_eq_toDigitsCore : ∀ (fuel u : Nat) (cs : List Char), u ≤ fuel →
    formatBits fuel u (cs.map Char.toNat) =
      (Nat.toDigitsCore 10 (fuel + 1) u cs).map Char.toNat
  | 0, u, cs, h => by
    have hu : u = 0 := by omega
    subst hu
    simp [formatBits, Nat.toDigitsCore, digitChar_toNat]
  | fuel + 1, u, cs, h => by
    by_cases h10 : 10 ≤ u
    · have hne : u / 10 ≠ 0 := by omega
      have ih := formatBits_eq_toDigitsCore fuel (u / 10) (Nat.digitChar (u % 10) :: cs)
        (by omega)
      simp only [List.map_cons, digitChar_toNat (u % 10) (by omega)] at ih
      rw [formatBits, if_pos h10, ih]
      conv_rhs => rw [Nat.toDigitsCore]
      simp only [if_neg hne]
    · have hz : u / 10 = 0 := by omega
      have hm : u % 10 = u := by omega
      rw [formatBits, if_neg h10]
      conv_rhs => rw [Nat.toDigitsCore]
      simp only [hz, if_true, hm, List.map_cons, digitChar_toNat u (by omega)]

theorem formatBits_eq_repr (n : Nat) :
    formatBits n n [] = (Nat.repr n).toList.map Char.toNat := by
  have h := formatBits_eq_toDigitsCore n n [] (le_refl n)
  simpa [Nat.repr, Nat.toDigits, List.asString] using h

/-- AppendInt to the empty slice gives the characters of the decimal form of the int. -/
theorem AppendInt_nil (i : Int) :
    AppendInt [] i = (toString i).toList.map Char.toNat := by
  unfold AppendInt
  cases i with
  | ofNat m =>
    have h : ¬ (Int.ofNat m < 0) := by simp
    rw [if_neg h]
    simp only [List.nil_append, Int.natAbs_ofNat]
    rw [formatBits_eq_repr]
    rfl
  | negSucc m =>
    have h : Int.negSucc m < 0 := Int.negSucc_lt_zero m
    rw [if_pos h]
    simp only [List.nil_append, Int.natAbs_negSucc]
    rw [formatBits_eq_repr]
    show _ = (String.toList ("-" ++ Nat.repr (m + 1))).map Char.toNat
    simp [String.toList, String.data_append]

/-- C2, counterexample. After `init(35, "A")` the wire bytes are the five
bytes "35=A" and the byte 1; they are not the four bytes of the decimal form
of the tag, '=' and the value. -/
theorem init_String_counterexample :
    (TagValue.init ⟨0, [], []⟩ 35 [65]).String = [51, 53, 61, 65, 1] ∧
      (TagValue.init ⟨0, [], []⟩ 35 [65]).String ≠
        (toString (35 : Tag)).toList.map Char.toNat ++ sepByte :: [65] := by
  decide

/-- C2, as amended. After `init(tag, value)` the wire bytes are the decimal
form of the tag, then '=', then the value, then the one delimiter byte 1
(SOH), which `init` itself appends. -/
theorem init_String (tv : TagValue) (tag : Tag) (value : List Byte) :
    (TagValue.init tv tag value).String =
      (toString tag).toList.map Char.toNat ++ sepByte :: value ++ [sohByte] := by
  simp [TagValue.init, TagValue.String, AppendInt_nil]

/-- The tag 35 with the value "A" gives the five bytes "35=A" and SOH. -/
theorem init_String_witness :
    (TagValue.init ⟨0, [], []⟩ 35 [65]).String = [51, 53, 61, 65, 1] ∧
      (toString (35 : Tag)).toList.map Char.toNat ++ sepByte :: [65] ++ [sohByte] =
        [51, 53, 61, 65, 1] :=
  ⟨(init_String ⟨0, [], []⟩ 35 [65]).trans (by decide), by decide⟩

/-- C3. When `parse` succeeds on `raw` and the first '=' of `raw` is at index
`i ≥ 1`, `Value()` is `raw[i+1 .. n-1)`, so that `raw` is the bytes before
that '=', the '=', the value and the last byte; a further '=' in the value
does not cut it. -/
theorem parse_Value_between (atoi : Atoi) (tv tv' : TagValue) (raw : List Byte) (i : Nat)
    (hok : TagValue.parse atoi tv raw = some (tv', none))
    (hi : 1 ≤ i) (hsep : raw[i]? = some sepByte)
    (hfirst : ∀ j, j < i → raw[j]? ≠ some sepByte) :
    tv'.Value = (raw.take (raw.length - 1)).drop (i + 1) ∧
      ∃ last, raw[raw.length - 1]? = some last ∧
        raw = raw.take i ++ [sepByte] ++ tv'.Value ++ [last] := by
  rw [parse_of_first atoi tv raw i hi hsep hfirst] at hok
  obtain ⟨hlt, hget⟩ := List.getElem?_eq_some.mp hsep
  obtain ⟨h2, _, hval, _⟩ := parseAt_success atoi tv tv' raw i hlt hok
  have hlast : raw.length - 1 < raw.length := by omega
  refine ⟨hval, raw[raw.length - 1], List.getElem?_eq_getElem hlast, ?_⟩
  show raw = raw.take i ++ [sepByte] ++ tv'.value ++ [raw[raw.length - 1]]
  rw [hval, List.drop_take]
  have e1 : raw.drop i = sepByte :: raw.drop (i + 1) := by
    rw [List.drop_eq_getElem_cons hlt, hget]
  have e2 : raw.drop (i + 1) =
      (raw.drop (i + 1)).take (raw.length - 1 - (i + 1)) ++ [raw[raw.length - 1]] := by
    have hl : (raw.drop (i + 1)).length = (raw.length - 1 - (i + 1)) + 1 := by
      rw [List.length_drop]
      omega
    have e3 : (raw.drop (i + 1)).drop (raw.length - 1 - (i + 1)) = [raw[raw.length - 1]] := by
      rw [List.drop_drop]
      have e4 : raw.length - 1 - (i + 1) + (i + 1) = raw.length - 1 := by omega
      have e5 : i + 1 + (raw.length - 1 - (i + 1)) = raw.length - 1 := by omega
      first
        | rw [e4, List.drop_eq_getElem_cons hlast]
        | rw [e5, List.drop_eq_getElem_cons hlast]
      have e6 : raw.length - 1 + 1 = raw.length := by omega
      rw [e6, List.drop_length]
    conv_lhs => rw [← List.take_append_drop (raw.length - 1 - (i + 1)) (raw.drop (i + 1)), e3]
  conv_lhs => rw [← List.take_append_drop i raw, e1, e2]
  simp

/-- The field "35=A=B" with the delimiter byte 1: the value "A=B" is kept whole. -/
theorem parse_Value_between_witness :
    TagValue.parse atoi ⟨0, [], []⟩ [51, 53, 61, 65, 61, 66, 1] =
        some (⟨35, [65, 61, 66], [51, 53, 61, 65, 61, 66, 1]⟩, none) ∧
      TagValue.Value ⟨35, [65, 61, 66], [51, 53, 61, 65, 61, 66, 1]⟩ =
        (([51, 53, 61, 65, 61, 66, 1] : List Byte).take
          (([51, 53, 61, 65, 61, 66, 1] : List Byte).length - 1)).drop (2 + 1) ∧
      ∃ last, ([51, 53, 61, 65, 61, 66, 1] : List Byte)[
          ([51, 53, 61, 65, 61, 66, 1] : List Byte).length - 1]? = some last ∧
        ([51, 53, 61, 65, 61, 66, 1] : List Byte) =
          ([51, 53, 61, 65, 61, 66, 1] : List Byte).take 2 ++ [sepByte] ++
            TagValue.Value ⟨35, [65, 61, 66], [51, 53, 61, 65, 61, 66, 1]⟩ ++ [last] :=
  ⟨by decide,
    parse_Value_between atoi ⟨0, [], []⟩ _ [51, 53, 61, 65, 61, 66, 1] 2 (by decide)
      (by decide) (by decide) (by
        intro j hj
        have hj' : j = 0 ∨ j = 1 := by omega
        rcases hj' with rfl | rfl <;> decide)⟩

/-- C4. On a slice without any '=' byte, whatever its length, `parse` returns
the "No '=' in ..." error, the receiver being as it was. -/
theorem parse_no_separator (atoi : Atoi) (tv : TagValue) (raw : List Byte)
    (hno : sepByte ∉ raw) :
    TagValue.parse atoi tv raw = some (tv, some (.noSeparator raw)) := by
  have hscan : TagValue.parseScan atoi tv raw = some (tv, some (.noSeparator raw)) := by
    unfold TagValue.parseScan
    simp only [IndexByte_of_not_mem sepByte raw hno]
    rfl
  by_cases hlen : raw.length < 5
  · rw [parse_short atoi tv raw hlen, hscan]
  · match raw, hlen, hno, hscan with
    | a :: b :: c :: d :: e :: rest, _, hno, hscan =>
      simp only [List.mem_cons, not_or] at hno
      obtain ⟨_, hb, hc, hd, he, _⟩ := hno
      rw [parse_cons5, if_neg (Ne.symm hb), if_neg (Ne.symm hc), if_neg (Ne.symm hd),
        if_neg (Ne.symm he), hscan]
    | [], h, _, _ => simp at h
    | [_], h, _, _ => simp at h
    | [_, _], h, _, _ => simp at h
    | [_, _, _], h, _, _ => simp at h
    | [_, _, _, _], h, _, _ => simp at h

/-- The slice "novalue", seven bytes with no '=', passes the fast-path checks
and gets the "No '=' in ..." error. -/
theorem parse_no_separator_witness :
    sepByte ∉ ([110, 111, 118, 97, 108, 117, 101] : List Byte) ∧
      TagValue.parse atoi ⟨0, [], []⟩ [110, 111, 118, 97, 108, 117, 101] =
        some (⟨0, [], []⟩, some (.noSeparator [110, 111, 118, 97, 108, 117, 101])) :=
  ⟨by decide, parse_no_separator atoi ⟨0, [], []⟩ [110, 111, 118, 97, 108, 117, 101] (by decide)⟩

/-- The scan path on a slice that starts with '=' returns the "No tag" error. -/
theorem parseScan_no_tag (atoi : Atoi) (tv : TagValue) (raw : List Byte)
    (h0 : raw[0]? = some sepByte) :
    TagValue.parseScan atoi tv raw = some (tv, some (.noTag raw)) := by
  have hidx : IndexByte raw sepByte = ((0 : Nat) : Int) :=
    IndexByte_of_first sepByte raw 0 h0 (fun j hj => by omega)
  unfold TagValue.parseScan
  simp only [hidx]
  rfl

/-- C5, the failing input. The five bytes "=1=ab" have an empty tag, and
`parse` does not return the "No tag" error on them: the fast path takes the
'=' at position 2 and goes to PARSE past the guard of the scan path. The
error is the one of `atoi` on the bytes "=1", and with an `atoi` that accepts
them the parse succeeds. The four bytes "=a=b", too short for the fast path,
get the "No tag" error. -/
theorem parse_empty_tag_fast_path :
    TagValue.parse atoi ⟨0, [], []⟩ [61, 49, 61, 97, 98] =
        some (⟨0, [], []⟩, some (.badTag "invalid format")) ∧
      TagValue.parse (fun _ => .ok 7) ⟨0, [], []⟩ [61, 49, 61, 97, 98] =
        some (⟨7, [97], [61, 49, 61, 97, 98]⟩, none) ∧
      TagValue.parse atoi ⟨0, [], []⟩ [61, 97, 61, 98] =
        some (⟨0, [], []⟩, some (.noTag [61, 97, 61, 98])) := by
  decide

/-- On the five bytes "=1=ab" the result of `parse` is not the "No tag"
error, whatever `atoi` does. -/
theorem parse_fast_path_skips_no_tag :
    ([61, 49, 61, 97, 98] : List Byte)[0]? = some sepByte ∧
      ∀ (atoi : Atoi) (tv : TagValue),
        TagValue.parse atoi tv [61, 49, 61, 97, 98] ≠
          some (tv, some (.noTag [61, 49, 61, 97, 98])) := by
  refine ⟨by decide, ?_⟩
  intro atoi tv
  rw [parse_cons5, if_neg (by decide), if_pos (by decide)]
  have h := parseAt_eq atoi tv [61, 49, 61, 97, 98] 2 (by decide)
  simp only [Nat.cast_ofNat] at h
  rw [h]
  cases atoi (List.take 2 [61, 49, 61, 97, 98]) with
  | error text => simp
  | ok parsedTag => simp

/-- Where the guard of the scan path is reached: on a slice whose first byte
is '=' and that is shorter than five bytes or has no '=' at positions 1 to 4,
`parse` returns the "No tag" error, the receiver being as it was. -/
theorem parse_no_tag_of_scan (atoi : Atoi) (tv : TagValue) (raw : List Byte)
    (h0 : raw[0]? = some sepByte)
    (hfast : raw.length < 5 ∨ ∀ j, 1 ≤ j → j ≤ 4 → raw[j]? ≠ some sepByte) :
    TagValue.parse atoi tv raw = some (tv, some (.noTag raw)) := by
  have hscan := parseScan_no_tag atoi tv raw h0
  by_cases hlen : raw.length < 5
  · rw [parse_short atoi tv raw hlen, hscan]
  · match raw, hlen, hscan, hfast with
    | a :: b :: c :: d :: e :: rest, _, hscan, hfast =>
      have hfast' : ∀ j, 1 ≤ j → j ≤ 4 →
          (a :: b :: c :: d :: e :: rest)[j]? ≠ some sepByte := by
        rcases hfast with hl | hf
        · simp only [List.length_cons] at hl
          omega
        · exact hf
      have h1 := hfast' 1 (by omega) (by omega)
      have h2 := hfast' 2 (by omega) (by omega)
      have h3 := hfast' 3 (by omega) (by omega)
      have h4 := hfast' 4 (by omega) (by omega)
      simp only [List.getElem?_cons_succ, List.getElem?_cons_zero, ne_eq,
        Option.some.injEq] at h1 h2 h3 h4
      rw [parse_cons5, if_neg h1, if_neg h2, if_neg h3, if_neg h4, hscan]
    | [], h, _, _ => simp at h
    | [_], h, _, _ => simp at h
    | [_, _], h, _, _ => simp at h
    | [_, _, _], h, _, _ => simp at h
    | [_, _, _, _], h, _, _ => simp at h

/-- The six bytes "=value" have no '=' at positions 1 to 4 and get the
"No tag" error. -/
theorem parse_no_tag_of_scan_witness :
    ([61, 118, 97, 108, 117, 101] : List Byte)[0]? = some sepByte ∧
      TagValue.parse atoi ⟨0, [], []⟩ [61, 118, 97, 108, 117, 101] =
        some (⟨0, [], []⟩, some (.noTag [61, 118, 97, 108, 117, 101])) :=
  ⟨by decide,
    parse_no_tag_of_scan atoi ⟨0, [], []⟩ [61, 118, 97, 108, 117, 101] (by decide)
      (Or.inr (fun j h1 h4 => by
        have hj : j = 1 ∨ j = 2 ∨ j = 3 ∨ j = 4 := by omega
        rcases hj with rfl | rfl | rfl | rfl <;> decide))⟩

/-- C6, the failing input. On the three bytes "35=", a field with an empty
value and no delimiter, `parse` panics: the separator is the last byte, and
the slice expression for the value has its low bound 3 above its high bound 2. -/
theorem parse_panics_on_trailing_separator :
    TagValue.parse atoi ⟨0, [], []⟩ [51, 53, 61] = none := by
  decide

/-- The panic of `parse` in general: when the first '=' is the last byte and
`atoi` accepts the bytes before it, `parse` panics, on the scan path and on
the fast path alike. -/
theorem parse_panics_of_last_separator (atoi : Atoi) (tv : TagValue) (raw : List Byte)
    (i : Nat) (parsedTag : Int)
    (hi : 1 ≤ i) (hsep : raw[i]? = some sepByte)
    (hfirst : ∀ j, j < i → raw[j]? ≠ some sepByte)
    (hlast : i + 1 = raw.length) (hat : atoi (raw.take i) = .ok parsedTag) :
    TagValue.parse atoi tv raw = none := by
  rw [parse_of_first atoi tv raw i hi hsep hfirst, parseAt_eq atoi tv raw i (by omega), hat]
  simp only
  rw [if_neg (by omega)]

/-- The five bytes "1234=" panic on the fast path. -/
theorem parse_panics_of_last_separator_witness :
    TagValue.parse atoi ⟨0, [], []⟩ [49, 50, 51, 52, 61] = none :=
  parse_panics_of_last_separator atoi ⟨0, [], []⟩ [49, 50, 51, 52, 61] 4 1234 (by decide)
    (by decide)
    (fun j hj => by
      have hj' : j = 0 ∨ j = 1 ∨ j = 2 ∨ j = 3 := by omega
      rcases hj' with rfl | rfl | rfl | rfl <;> decide)
    (by decide) rfl

/-- Short of that, `parse` returns: on a slice whose last byte is not '=' (the
empty slice included) it gives an error or a populated TagValue, never a
panic; the index reads at positions 1 to 4 and the slice expressions are in
range. -/
theorem parse_returns_of_last_ne (atoi : Atoi) (tv : TagValue) (raw : List Byte)
    (hlast : raw.getLast? ≠ some sepByte) :
    ∃ r, TagValue.parse atoi tv raw = some r := by
  rcases parse_outcome atoi tv raw with ⟨e, he⟩ | ⟨k, hk1, hsep, hk⟩
  · exact ⟨_, he⟩
  · obtain ⟨hlt, hget⟩ := List.getElem?_eq_some.mp hsep
    have hne : k ≠ raw.length - 1 := by
      intro hkl
      apply hlast
      rw [List.getLast?_eq_getElem?, ← hkl]
      exact hsep
    rw [hk, parseAt_eq atoi tv raw k hlt]
    cases atoi (raw.take k) with
    | error text => exact ⟨_, rfl⟩
    | ok parsedTag =>
      simp only
      rw [if_pos (by omega)]
      exact ⟨_, rfl⟩

/-- The field "35=A" with the delimiter byte 1 does not end in '=' and parses. -/
theorem parse_returns_of_last_ne_witness :
    ([51, 53, 61, 65, 1] : List Byte).getLast? ≠ some sepByte ∧
      ∃ r, TagValue.parse atoi ⟨0, [], []⟩ [51, 53, 61, 65, 1] = some r :=
  ⟨by decide, parse_returns_of_last_ne atoi ⟨0, [], []⟩ [51, 53, 61, 65, 1] (by decide)⟩

/-! ## The registry: theorems -/

/-- C7. `registerSession(s)` fails with errDuplicateSessionID exactly when the
directory has an entry for `s.sessionID`, and then the directory is unchanged,
the lookup still giving the session registered first; otherwise it returns
nil, the lookup of `s.sessionID` gives `s`, and the entry of every other
SessionID is unchanged. -/
theorem registerSession_spec (D : Sessions) (s : session) :
    ((registerSession D s).2 = some errDuplicateSessionID ↔
        (lookupSession D s.sessionID).isSome) ∧
      ((lookupSession D s.sessionID).isSome →
        (registerSession D s).1 = D ∧
          lookupSession (registerSession D s).1 s.sessionID = lookupSession D s.sessionID) ∧
      (lookupSession D s.sessionID = none →
        (registerSession D s).2 = none ∧
          lookupSession (registerSession D s).1 s.sessionID = some s ∧
          ∀ k, k ≠ s.sessionID →
            lookupSession (registerSession D s).1 k = lookupSession D k) := by
  unfold registerSession lookupSession
  cases h : D s.sessionID with
  | none =>
    refine ⟨by simp, by simp, fun _ => ⟨rfl, by simp, ?_⟩⟩
    intro k hk
    simp [Function.update_noteq hk]
  | some s0 =>
    exact ⟨by simp, fun _ => ⟨rfl, h⟩, by simp⟩

/-- Two sessions with the same identity registered in turn in the empty
directory: the first succeeds, the second fails, and the first stays. -/
theorem registerSession_spec_witness :
    (registerSession Sessions.empty ⟨1, routedID⟩).2 = none ∧
      lookupSession (registerSession Sessions.empty ⟨1, routedID⟩).1 routedID =
        some ⟨1, routedID⟩ ∧
      (registerSession (registerSession Sessions.empty ⟨1, routedID⟩).1 ⟨2, routedID⟩).2 =
        some errDuplicateSessionID ∧
      lookupSession
          (registerSession (registerSession Sessions.empty ⟨1, routedID⟩).1 ⟨2, routedID⟩).1
          routedID = some ⟨1, routedID⟩ :=
  ⟨((registerSession_spec Sessions.empty ⟨1, routedID⟩).2.2 rfl).1,
    ((registerSession_spec Sessions.empty ⟨1, routedID⟩).2.2 rfl).2.1,
    (registerSession_spec (registerSession Sessions.empty ⟨1, routedID⟩).1
      ⟨2, routedID⟩).1.mpr (by decide),
    by decide⟩

/-- C8. `UnregisterSession(id)` returns nil exactly when the directory has an
entry for `id`, and then the lookup of `id` finds nothing and every other
entry is unchanged; otherwise it returns errUnknownSession and the directory
is unchanged. -/
theorem UnregisterSession_spec (D : Sessions) (id : SessionID) :
    ((UnregisterSession D id).2 = none ↔ (lookupSession D id).isSome) ∧
      ((lookupSession D id).isSome →
        lookupSession (UnregisterSession D id).1 id = none ∧
          ∀ k, k ≠ id → lookupSession (UnregisterSession D id).1 k = lookupSession D k) ∧
      (lookupSession D id = none →
        (UnregisterSession D id).2 = some errUnknownSession ∧
          (UnregisterSession D id).1 = D) := by
  unfold UnregisterSession lookupSession
  cases h : D id with
  | none =>
    exact ⟨by simp, by simp, fun _ => ⟨rfl, rfl⟩⟩
  | some s0 =>
    refine ⟨by simp, fun _ => ⟨by simp, ?_⟩, by simp⟩
    intro k hk
    simp [Function.update_noteq hk]

/-- A session registered in the empty directory is unregistered once with
success; a second call finds nothing to remove. -/
theorem UnregisterSession_spec_witness :
    (UnregisterSession (registerSession Sessions.empty ⟨1, routedID⟩).1 routedID).2 = none ∧
      lookupSession
          (UnregisterSession (registerSession Sessions.empty ⟨1, routedID⟩).1 routedID).1
          routedID = none ∧
      (UnregisterSession Sessions.empty routedID).2 = some errUnknownSession :=
  ⟨(UnregisterSession_spec (registerSession Sessions.empty ⟨1, routedID⟩).1 routedID).1.mpr
      (by decide),
    ((UnregisterSession_spec (registerSession Sessions.empty ⟨1, routedID⟩).1 routedID).2.1
      (by decide)).1,
    ((UnregisterSession_spec Sessions.empty routedID).2.2 rfl).1⟩

/-- C9. `SendToTarget(m, id)` returns errUnknownSession and invokes no session
operation when no session is registered under `id`; otherwise it invokes
queueForSend once, on the session registered under `id`, with the message of
`m`, and returns the error of that call; the directory is unchanged either way. -/
theorem SendToTarget_spec {σ : Type} (ops : SessionOps σ) (m : Messagable)
    (id : SessionID) (st : State σ) :
    (lookupSession st.sessions id = none →
        SendToTarget ops m id st = (st, some errUnknownSession)) ∧
      (∀ s, lookupSession st.sessions id = some s →
        SendToTarget ops m id st =
          ({ sessions := st.sessions
             ext := (ops.queueForSend s m.ToMessage st.ext).1
             calls := st.calls ++ [Call.queueForSend s m.ToMessage] },
            (ops.queueForSend s m.ToMessage st.ext).2)) ∧
      (SendToTarget ops m id st).1.sessions = st.sessions := by
  unfold SendToTarget
  cases h : lookupSession st.sessions id with
  | none => exact ⟨fun _ => rfl, by simp, rfl⟩
  | some s0 =>
    refine ⟨by simp, ?_, rfl⟩
    intro s hs
    cases hs
    rfl

/-- With one session registered under `routedID`, `SendToTarget` of
`routedMessage` records one queueForSend on that session and returns its nil;
with the empty directory it returns errUnknownSession and records nothing. -/
theorem SendToTarget_spec_witness :
    SendToTarget countingOps routedMessage.asMessagable routedID
        { sessions := (registerSession Sessions.empty ⟨1, routedID⟩).1, ext := 0, calls := [] } =
        ({ sessions := (registerSession Sessions.empty ⟨1, routedID⟩).1
           ext := 1
           calls := [Call.queueForSend ⟨1, routedID⟩ routedMessage] }, none) ∧
      SendToTarget countingOps routedMessage.asMessagable routedID
        { sessions := Sessions.empty, ext := 0, calls := [] } =
        ({ sessions := Sessions.empty, ext := 0, calls := [] }, some errUnknownSession) :=
  ⟨(SendToTarget_spec countingOps routedMessage.asMessagable routedID
      { sessions := (registerSession Sessions.empty ⟨1, routedID⟩).1, ext := 0, calls := [] }).2.1
      ⟨1, routedID⟩ (by decide),
    (SendToTarget_spec countingOps routedMessage.asMessagable routedID
      { sessions := Sessions.empty, ext := 0, calls := [] }).1 rfl⟩

/-- C10. When the header of the message of `m` has BeginString `b`,
TargetCompID `t` and SenderCompID `s`, `Send(m)` has the result and the effect
of `SendToTarget` on `m` and the identity made of `b`, `s`, `t` and the
header's SenderSubID and TargetSubID, each the empty string when absent; so
it returns errUnknownSession, no session operation being invoked, when no
session is registered under that identity. -/
theorem Send_eq_SendToTarget {σ : Type} (ops : SessionOps σ) (m : Messagable)
    (st : State σ) (b t s : String)
    (hb : m.ToMessage.Header.fields tagBeginString = .ok b)
    (ht : m.ToMessage.Header.fields tagTargetCompID = .ok t)
    (hs : m.ToMessage.Header.fields tagSenderCompID = .ok s) :
    Send ops m st =
        SendToTarget ops m
          { BeginString := b
            SenderCompID := s
            SenderSubID := m.ToMessage.Header.textOrEmpty tagSenderSubID
            TargetCompID := t
            TargetSubID := m.ToMessage.Header.textOrEmpty tagTargetSubID } st ∧
      (lookupSession st.sessions
          { BeginString := b
            SenderCompID := s
            SenderSubID := m.ToMessage.Header.textOrEmpty tagSenderSubID
            TargetCompID := t
            TargetSubID := m.ToMessage.Header.textOrEmpty tagTargetSubID } = none →
        Send ops m st = (st, some errUnknownSession)) := by
  have hsub : ∀ tag, (m.ToMessage.Header.GetField tag "").1 =
      m.ToMessage.Header.textOrEmpty tag := by
    intro tag
    unfold Header.GetField Header.textOrEmpty
    cases m.ToMessage.Header.fields tag <;> rfl
  have key : Send ops m st =
      SendToTarget ops m
        { BeginString := b
          SenderCompID := s
          SenderSubID := m.ToMessage.Header.textOrEmpty tagSenderSubID
          TargetCompID := t
          TargetSubID := m.ToMessage.Header.textOrEmpty tagTargetSubID } st := by
    rw [← hsub tagSenderSubID, ← hsub tagTargetSubID]
    unfold Send
    simp only [Header.GetField, hb, ht, hs]
    rfl
  refine ⟨key, fun hnone => ?_⟩
  rw [key]
  unfold SendToTarget
  rw [hnone]

/-- The message with BeginString "FIX.4.2", TargetCompID "TARGET" and
SenderCompID "SENDER" and no sub-identifiers: with no session registered
`Send` returns errUnknownSession and records no call; with a session
registered under `routedID` it records one queueForSend on it. -/
theorem Send_eq_SendToTarget_witness :
    Send countingOps routedMessage.asMessagable
        { sessions := Sessions.empty, ext := 0, calls := [] } =
        SendToTarget countingOps routedMessage.asMessagable
          { BeginString := "FIX.4.2"
            SenderCompID := "SENDER"
            SenderSubID :=
              routedMessage.asMessagable.ToMessage.Header.textOrEmpty tagSenderSubID
            TargetCompID := "TARGET"
            TargetSubID :=
              routedMessage.asMessagable.ToMessage.Header.textOrEmpty tagTargetSubID }
          { sessions := Sessions.empty, ext := 0, calls := [] } ∧
      Send countingOps routedMessage.asMessagable
        { sessions := Sessions.empty, ext := 0, calls := [] } =
        ({ sessions := Sessions.empty, ext := 0, calls := [] }, some errUnknownSession) ∧
      Send countingOps routedMessage.asMessagable
        { sessions := (registerSession Sessions.empty ⟨1, routedID⟩).1, ext := 0, calls := [] } =
        ({ sessions := (registerSession Sessions.empty ⟨1, routedID⟩).1
           ext := 1
           calls := [Call.queueForSend ⟨1, routedID⟩ routedMessage] }, none) :=
  ⟨(Send_eq_SendToTarget countingOps routedMessage.asMessagable
      { sessions := Sessions.empty, ext := 0, calls := [] } "FIX.4.2" "TARGET" "SENDER"
      rfl rfl rfl).1,
    (Send_eq_SendToTarget countingOps routedMessage.asMessagable
      { sessions := Sessions.empty, ext := 0, calls := [] } "FIX.4.2" "TARGET" "SENDER"
      rfl rfl rfl).2 rfl,
    rfl⟩

/-- C11. When the header has BeginString and TargetCompID and the read of
SenderCompID fails, `Send` returns nil and invokes no session operation,
whatever sessions are registered. -/
theorem Send_without_SenderCompID {σ : Type} (ops : SessionOps σ) (m : Messagable)
    (st : State σ) (b t : String) (e : GoError)
    (hb : m.ToMessage.Header.fields tagBeginString = .ok b)
    (ht : m.ToMessage.Header.fields tagTargetCompID = .ok t)
    (hs : m.ToMessage.Header.fields tagSenderCompID = .error e) :
    Send ops m st = (st, none) := by
  unfold Send
  simp only [Header.GetField, hb, ht, hs]

/-- The message without SenderCompID, sent while a session is registered
under the identity a SenderCompID "SENDER" would give: nil, and no call. -/
theorem Send_without_SenderCompID_witness :
    Send failingOps senderlessMessage.asMessagable
        { sessions := (registerSession Sessions.empty ⟨1, routedID⟩).1, ext := 0, calls := [] } =
      ({ sessions := (registerSession Sessions.empty ⟨1, routedID⟩).1, ext := 0, calls := [] },
        none) :=
  Send_without_SenderCompID failingOps senderlessMessage.asMessagable
    { sessions := (registerSession Sessions.empty ⟨1, routedID⟩).1, ext := 0, calls := [] }
    "FIX.4.2" "TARGET" (.other "field not found") rfl rfl rfl

/-- C12. When the read of BeginString fails, `Send` returns the error of that
read; when it succeeds and the read of TargetCompID fails, `Send` returns the
error of that one. Either way the error is not nil, no session operation is
invoked and the state is as it was, whatever sessions are registered and
whatever the header has for SenderCompID. -/
theorem Send_missing_required {σ : Type} (ops : SessionOps σ) (m : Messagable)
    (st : State σ) (e : GoError) :
    (m.ToMessage.Header.fields tagBeginString = .error e →
        Send ops m st = (st, some e)) ∧
      (∀ b, m.ToMessage.Header.fields tagBeginString = .ok b →
        m.ToMessage.Header.fields tagTargetCompID = .error e →
        Send ops m st = (st, some e)) := by
  refine ⟨fun hb => ?_, fun b hb ht => ?_⟩
  · unfold Send
    simp only [Header.GetField, hb]
  · unfold Send
    simp only [Header.GetField, hb, ht]

/-- The message with SenderCompID only gets the error of the BeginString read,
though its TargetCompID is absent too; the message without TargetCompID gets
the error of the TargetCompID read. No call is made. -/
theorem Send_missing_required_witness :
    Send countingOps bareMessage.asMessagable
        { sessions := (registerSession Sessions.empty ⟨1, routedID⟩).1, ext := 0, calls := [] } =
        ({ sessions := (registerSession Sessions.empty ⟨1, routedID⟩).1, ext := 0, calls := [] },
          some (.other "BeginString not found")) ∧
      Send countingOps targetlessMessage.asMessagable
        { sessions := (registerSession Sessions.empty ⟨1, routedID⟩).1, ext := 0, calls := [] } =
        ({ sessions := (registerSession Sessions.empty ⟨1, routedID⟩).1, ext := 0, calls := [] },
          some (.other "TargetCompID not found")) :=
  ⟨(Send_missing_required countingOps bareMessage.asMessagable
      { sessions := (registerSession Sessions.empty ⟨1, routedID⟩).1, ext := 0, calls := [] }
      (.other "BeginString not found")).1 rfl,
    (Send_missing_required countingOps targetlessMessage.asMessagable
      { sessions := (registerSession Sessions.empty ⟨1, routedID⟩).1, ext := 0, calls := [] }
      (.other "TargetCompID not found")).2 "FIX.4.2" rfl rfl⟩

/-- C13. `SendReject(m, id, rej)` returns errUnknownSession and invokes no
session operation when no session is registered under `id`; otherwise it
invokes doReject once, on the session registered under `id`, with `m` and
`rej`, and returns the error of that call. -/
theorem SendReject_spec {σ : Type} (ops : SessionOps σ) (m : Message) (id : SessionID)
    (rej : MessageRejectError) (st : State σ) :
    (lookupSession st.sessions id = none →
        SendReject ops m id rej st = (st, some errUnknownSession)) ∧
      (∀ s, lookupSession st.sessions id = some s →
        SendReject ops m id rej st =
          ({ sessions := st.sessions
             ext := (ops.doReject s m rej st.ext).1
             calls := st.calls ++ [Call.doReject s m rej] },
            (ops.doReject s m rej st.ext).2)) := by
  unfold SendReject
  cases h : lookupSession st.sessions id with
  | none => exact ⟨fun _ => rfl, by simp⟩
  | some s0 =>
    refine ⟨by simp, ?_⟩
    intro s hs
    cases hs
    rfl

/-- With one session registered under `routedID`, `SendReject` records one
doReject on it with the message and the reject error and returns the error of
the call; with the empty directory it returns errUnknownSession and records
nothing. -/
theorem SendReject_spec_witness :
    SendReject failingOps routedMessage routedID ⟨"bad field", 5⟩
        { sessions := (registerSession Sessions.empty ⟨1, routedID⟩).1, ext := 0, calls := [] } =
        ({ sessions := (registerSession Sessions.empty ⟨1, routedID⟩).1
           ext := 1
           calls := [Call.doReject ⟨1, routedID⟩ routedMessage ⟨"bad field", 5⟩] },
          some (.other "reject failed")) ∧
      SendReject failingOps routedMessage routedID ⟨"bad field", 5⟩
        { sessions := Sessions.empty, ext := 0, calls := [] } =
        ({ sessions := Sessions.empty, ext := 0, calls := [] }, some errUnknownSession) :=
  ⟨(SendReject_spec failingOps routedMessage routedID ⟨"bad field", 5⟩
      { sessions := (registerSession Sessions.empty ⟨1, routedID⟩).1, ext := 0, calls := [] }).2
      ⟨1, routedID⟩ (by decide),
    (SendReject_spec failingOps routedMessage routedID ⟨"bad field", 5⟩
      { sessions := Sessions.empty, ext := 0, calls := [] }).1 rfl⟩

/-- The loop of `total` started at `z` adds the sum of the bytes to `z`. -/
theorem foldl_total (l : List Byte) : ∀ z : Int,
    l.foldl (fun (total : Int) (b : Byte) => total + (b : Int)) z =
      z + ((l.sum : Nat) : Int) := by
  induction l with
  | nil => intro z; simp
  | cons b rest ih =>
    intro z
    rw [List.foldl_cons, ih, List.sum_cons]
    push_cast
    ring

/-- C14. `total()` is the arithmetic sum of the unsigned byte values of the
wire form; after a successful parse of `raw` it is the sum of all the bytes
of `raw`, the last one included, and `length()` is the length of `raw`. -/
theorem total_length_spec (atoi : Atoi) (tv0 tv : TagValue) (raw : List Byte) :
    tv.total = ((tv.String.sum : Nat) : Int) ∧
      (TagValue.parse atoi tv0 raw = some (tv, none) →
        tv.total = ((raw.sum : Nat) : Int) ∧ tv.length = (raw.length : Int)) := by
  have ht : tv.total = ((tv.String.sum : Nat) : Int) := by
    unfold TagValue.total TagValue.String
    rw [foldl_total]
    simp
  refine ⟨ht, fun hok => ?_⟩
  have hbytes : tv.bytes = raw := by
    rcases parse_outcome atoi tv0 raw with ⟨e, he⟩ | ⟨k, _, hsep, hk⟩
    · rw [he] at hok
      simp at hok
    · rw [hk] at hok
      have hlt : k < raw.length := (List.getElem?_eq_some.mp hsep).1
      exact (parseAt_success atoi tv0 tv raw k hlt hok).2.1
  constructor
  · rw [ht]
    unfold TagValue.String
    rw [hbytes]
  · unfold TagValue.length
    rw [hbytes]

/-- The field "35=A" with the delimiter byte 1: the bytes add up to
51 + 53 + 61 + 65 + 1 = 231 and there are five of them. -/
theorem total_length_spec_witness :
    TagValue.total ⟨35, [65], [51, 53, 61, 65, 1]⟩ = 231 ∧
      TagValue.length ⟨35, [65], [51, 53, 61, 65, 1]⟩ = 5 ∧
      TagValue.total ⟨35, [65], [51, 53, 61, 65, 1]⟩ =
        (((TagValue.String ⟨35, [65], [51, 53, 61, 65, 1]⟩).sum : Nat) : Int) ∧
      (TagValue.total ⟨35, [65], [51, 53, 61, 65, 1]⟩ =
          (((([51, 53, 61, 65, 1] : List Byte)).sum : Nat) : Int) ∧
        TagValue.length ⟨35, [65], [51, 53, 61, 65, 1]⟩ =
          ((([51, 53, 61, 65, 1] : List Byte)).length : Int)) :=
  ⟨by decide, by decide,
    (total_length_spec atoi ⟨0, [], []⟩ ⟨35, [65], [51, 53, 61, 65, 1]⟩
      [51, 53, 61, 65, 1]).1,
    (total_length_spec atoi ⟨0, [], []⟩ ⟨35, [65], [51, 53, 61, 65, 1]⟩
      [51, 53, 61, 65, 1]).2 (by decide)⟩

/-- C15. Whenever `parse` returns an error, the receiver is what it was before
the call, tag, value and bytes alike. -/
theorem parse_error_keeps_receiver (atoi : Atoi) (tv tv' : TagValue) (raw : List Byte)
    (e : ParseError) (herr : TagValue.parse atoi tv raw = some (tv', some e)) :
    tv' = tv := by
  rcases parse_outcome atoi tv raw with ⟨e0, he⟩ | ⟨k, _, hsep, hk⟩
  · rw [he] at herr
    simp only [Option.some.injEq, Prod.mk.injEq] at herr
    exact herr.1.symm
  · have hlt : k < raw.length := (List.getElem?_eq_some.mp hsep).1
    rw [hk, parseAt_eq atoi tv raw k hlt] at herr
    cases hat : atoi (raw.take k) with
    | error text =>
      rw [hat] at herr
      simp only [Option.some.injEq, Prod.mk.injEq] at herr
      exact herr.1.symm
    | ok parsedTag =>
      rw [hat] at herr
      by_cases h2 : k + 2 ≤ raw.length
      · simp [if_pos h2] at herr
      · simp [if_neg h2] at herr

/-- A receiver that holds the field "35=A" keeps it through the three failing
parses of "novalue", "=value" and "ab=c" with its delimiter. -/
theorem parse_error_keeps_receiver_witness :
    TagValue.parse atoi ⟨35, [65], [51, 53, 61, 65, 1]⟩ [110, 111, 118, 97, 108, 117, 101] =
        some (⟨35, [65], [51, 53, 61, 65, 1]⟩,
          some (.noSeparator [110, 111, 118, 97, 108, 117, 101])) ∧
      TagValue.parse atoi ⟨35, [65], [51, 53, 61, 65, 1]⟩ [61, 118, 97, 108, 117, 101] =
        some (⟨35, [65], [51, 53, 61, 65, 1]⟩, some (.noTag [61, 118, 97, 108, 117, 101])) ∧
      TagValue.parse atoi ⟨35, [65], [51, 53, 61, 65, 1]⟩ [97, 98, 61, 99, 1] =
        some (⟨35, [65], [51, 53, 61, 65, 1]⟩, some (.badTag "invalid format")) ∧
      (⟨35, [65], [51, 53, 61, 65, 1]⟩ : TagValue) = ⟨35, [65], [51, 53, 61, 65, 1]⟩ :=
  ⟨by decide, by decide, by decide,
    parse_error_keeps_receiver atoi ⟨35, [65], [51, 53, 61, 65, 1]⟩ _
      [97, 98, 61, 99, 1] (.badTag "invalid format") (by decide)⟩

/-- The value slice of `parse`, written as the reference parser writes it. -/
theorem value_slice_eq (raw : List Byte) (i : Nat) :
    (raw.take (raw.length - 1)).drop (i + 1) = (raw.drop (i + 1)).dropLast := by
  rw [List.dropLast_eq_take, List.drop_take, List.length_drop]
  have h : raw.length - 1 - (i + 1) = raw.length - (i + 1) - 1 := by omega
  rw [h]

/-- C18. On a slice whose first '=' is at an index `i ≥ 1`, whatever its
length, `parse` has the outcome of the reference parser: the same error, the
same panic, or the same tag, value and bytes. -/
theorem parse_refines_reference (atoi : Atoi) (tv : TagValue) (raw : List Byte) (i : Nat)
    (hi : 1 ≤ i) (hsep : raw[i]? = some sepByte)
    (hfirst : ∀ j, j < i → raw[j]? ≠ some sepByte) :
    TagValue.parse atoi tv raw = TagValue.parseReference atoi tv raw := by
  obtain ⟨hidx, hlt⟩ := indexOf_of_first sepByte raw i hsep hfirst
  rw [parse_of_first atoi tv raw i hi hsep hfirst, parseAt_eq atoi tv raw i hlt]
  unfold TagValue.parseReference
  simp only [hidx]
  rw [if_neg (by omega), if_neg (by omega)]
  cases atoi (raw.take i) with
  | error text => rfl
  | ok parsedTag =>
    simp only
    by_cases h2 : i + 2 ≤ raw.length
    · rw [if_pos h2, if_neg (by omega), value_slice_eq]
    · rw [if_neg h2, if_pos (by omega)]

/-- The field "12345=A" with its delimiter, whose tag is too long for the
fast path, and the field "35=A" with its delimiter, which takes it: each
parses as the reference parser has it. -/
theorem parse_refines_reference_witness :
    TagValue.parse atoi ⟨0, [], []⟩ [49, 50, 51, 52, 53, 61, 65, 1] =
        TagValue.parseReference atoi ⟨0, [], []⟩ [49, 50, 51, 52, 53, 61, 65, 1] ∧
      TagValue.parseReference atoi ⟨0, [], []⟩ [49, 50, 51, 52, 53, 61, 65, 1] =
        some (⟨12345, [65], [49, 50, 51, 52, 53, 61, 65, 1]⟩, none) ∧
      TagValue.parse atoi ⟨0, [], []⟩ [51, 53, 61, 65, 1] =
        TagValue.parseReference atoi ⟨0, [], []⟩ [51, 53, 61, 65, 1] :=
  ⟨parse_refines_reference atoi ⟨0, [], []⟩ [49, 50, 51, 52, 53, 61, 65, 1] 5 (by decide)
      (by decide)
      (fun j hj => by
        have hj' : j = 0 ∨ j = 1 ∨ j = 2 ∨ j = 3 ∨ j = 4 := by omega
        rcases hj' with rfl | rfl | rfl | rfl | rfl <;> decide),
    by decide,
    by decide⟩

theorem keyedByIdentity_empty : KeyedByIdentity Sessions.empty := by
  intro k s h
  simp [lookupSession, Sessions.empty] at h

theorem keyedByIdentity_run (D : Sessions) (c : DirectoryCall) (h : KeyedByIdentity D) :
    KeyedByIdentity (c.run D) := by
  intro k s hk
  cases c with
  | register s0 =>
    have hk' : (registerSession D s0).1 k = some s := hk
    unfold registerSession at hk'
    cases h0 : D s0.sessionID with
    | some s1 =>
      rw [h0] at hk'
      exact h k s hk'
    | none =>
      rw [h0] at hk'
      by_cases hks : k = s0.sessionID
      · subst hks
        have hs : s0 = s := by simpa using hk'
        rw [← hs]
      · have hD : D k = some s := by simpa [Function.update_noteq hks] using hk'
        exact h k s hD
  | unregister id =>
    have hk' : (UnregisterSession D id).1 k = some s := hk
    unfold UnregisterSession at hk'
    cases h0 : D id with
    | some s1 =>
      rw [h0] at hk'
      by_cases hks : k = id
      · subst hks
        simp at hk'
      · have hD : D k = some s := by simpa [Function.update_noteq hks] using hk'
        exact h k s hD
    | none =>
      rw [h0] at hk'
      exact h k s hk'

theorem keyedByIdentity_foldl (calls : List DirectoryCall) : ∀ D : Sessions,
    KeyedByIdentity D → KeyedByIdentity (calls.foldl DirectoryCall.run D) := by
  induction calls with
  | nil => intro D h; exact h
  | cons c rest ih =>
    intro D h
    exact ih (c.run D) (keyedByIdentity_run D c h)

/-- C20. Every directory reached from the empty one by a sequence of
registerSession and UnregisterSession calls holds each entry under the
identity of its session; and on any directory `D` with no entry for
`s.sessionID`, `registerSession(s)` then `UnregisterSession(s.sessionID)`
both return nil and leave a directory equal to `D`. -/
theorem directory_invariant :
    (∀ (calls : List DirectoryCall) (k : SessionID) (s : session),
        lookupSession (reached calls) k = some s → s.sessionID = k) ∧
      (∀ (D : Sessions) (s : session), lookupSession D s.sessionID = none →
        (registerSession D s).2 = none ∧
          (UnregisterSession (registerSession D s).1 s.sessionID).2 = none ∧
          (UnregisterSession (registerSession D s).1 s.sessionID).1 = D) := by
  refine ⟨fun calls => keyedByIdentity_foldl calls Sessions.empty keyedByIdentity_empty, ?_⟩
  intro D s hnone
  unfold lookupSession at hnone
  have hreg : registerSession D s = (Function.update D s.sessionID (some s), none) := by
    unfold registerSession
    rw [hnone]
  have hun : UnregisterSession (Function.update D s.sessionID (some s)) s.sessionID =
      (Function.update (Function.update D s.sessionID (some s)) s.sessionID none, none) := by
    unfold UnregisterSession
    simp
  rw [hreg]
  refine ⟨rfl, ?_, ?_⟩
  · rw [hun]
  · rw [hun]
    funext k
    by_cases hk : k = s.sessionID
    · subst hk
      simp [hnone]
    · simp [Function.update_noteq hk]

/-- Two sessions registered under `routedID` in turn, the second refused: the
entry of `routedID` is the first session, whose identity is `routedID`; and
registering then unregistering a session in the empty directory gives the
empty directory back. -/
theorem directory_invariant_witness :
    lookupSession (reached [.register ⟨1, routedID⟩, .register ⟨2, routedID⟩]) routedID =
        some ⟨1, routedID⟩ ∧
      (⟨1, routedID⟩ : session).sessionID = routedID ∧
      ((registerSession Sessions.empty ⟨1, routedID⟩).2 = none ∧
        (UnregisterSession (registerSession Sessions.empty ⟨1, routedID⟩).1
          (⟨1, routedID⟩ : session).sessionID).2 = none ∧
        (UnregisterSession (registerSession Sessions.empty ⟨1, routedID⟩).1
          (⟨1, routedID⟩ : session).sessionID).1 = Sessions.empty) :=
  ⟨by decide,
    directory_invariant.1 [.register ⟨1, routedID⟩, .register ⟨2, routedID⟩] routedID
      ⟨1, routedID⟩ (by decide),
    directory_invariant.2 Sessions.empty ⟨1, routedID⟩ rfl⟩

/-! ## The tag as a decimal integer -/

/-- On a run of digits the digit loop of `atoi` gives the decimal value, read
after the value it starts from. -/
theorem decimalValue_of_digits : ∀ (d : List Byte) (n : Nat),
    (∀ b ∈ d, 48 ≤ b ∧ b ≤ 57) →
    decimalValue d n = some (n * 10 ^ d.length + decimalOf d)
  | [], n, _ => by simp [decimalValue, decimalOf]
  | b :: rest, n, h => by
    have hb : 48 ≤ b ∧ b ≤ 57 := h b (List.mem_cons_self b rest)
    have hrest : ∀ c ∈ rest, 48 ≤ c ∧ c ≤ 57 :=
      fun c hc => h c (List.mem_cons_of_mem b hc)
    have ih := decimalValue_of_digits rest (n * 10 + (b - 48)) hrest
    have hnot : ¬ (b < 48 ∨ 57 < b) :=
      not_or.mpr ⟨not_lt.mpr hb.1, not_lt.mpr hb.2⟩
    rw [decimalValue, if_neg hnot, ih]
    simp only [decimalOf, List.reverse_cons, List.map_append, List.map_cons, List.map_nil,
      Nat.ofDigits_append, Nat.ofDigits_singleton, List.length_map, List.length_reverse,
      List.length_cons, Option.some.injEq]
    ring

/-- On a byte that is not a digit the digit loop of `atoi` stops with no value. -/
theorem decimalValue_of_bad : ∀ (d : List Byte) (n : Nat),
    (∃ b ∈ d, ¬ (48 ≤ b ∧ b ≤ 57)) → decimalValue d n = none
  | [], n, h => by
    obtain ⟨b, hb, _⟩ := h
    simp at hb
  | b :: rest, n, h => by
    by_cases hb : 48 ≤ b ∧ b ≤ 57
    · have hrest : ∃ c ∈ rest, ¬ (48 ≤ c ∧ c ≤ 57) := by
        obtain ⟨c, hc, hbad⟩ := h
        rcases List.mem_cons.mp hc with rfl | hc'
        · exact absurd hb hbad
        · exact ⟨c, hc', hbad⟩
      have hnot : ¬ (b < 48 ∨ 57 < b) :=
      not_or.mpr ⟨not_lt.mpr hb.1, not_lt.mpr hb.2⟩
      rw [decimalValue, if_neg hnot]
      exact decimalValue_of_bad rest _ hrest
    · have hyes : b < 48 ∨ 57 < b := by
        by_contra hno
        exact hb ⟨not_lt.mp (not_or.mp hno).1, not_lt.mp (not_or.mp hno).2⟩
      rw [decimalValue, if_pos hyes]

/-- The modelled `atoi` is the decimal integer parser. -/
theorem atoi_decimal : DecimalAtoi atoi := by
  intro d
  constructor
  · rintro ⟨hne, hdig⟩
    cases d with
    | nil => exact absurd rfl hne
    | cons b rest =>
      have h := decimalValue_of_digits (b :: rest) 0 hdig
      simp only [Nat.zero_mul, Nat.zero_add] at h
      simp only [atoi, h]
  · intro hnot
    cases d with
    | nil => exact ⟨_, rfl⟩
    | cons b rest =>
      have hbad : ∃ c ∈ b :: rest, ¬ (48 ≤ c ∧ c ≤ 57) := by
        by_contra hall
        push_neg at hall
        exact hnot ⟨by simp, hall⟩
      have h := decimalValue_of_bad (b :: rest) 0 hbad
      refine ⟨"invalid format", ?_⟩
      simp only [atoi, h]

/-- A slice that holds a '=' is not a run of digits. -/
theorem not_isDecimal_of_sep (d : List Byte) (h : sepByte ∈ d) : ¬ isDecimal d := by
  rintro ⟨_, hdig⟩
  have h61 := hdig sepByte h
  exact absurd h61.2 (by decide)

/-- C16. With `atoi` the decimal integer parser: when the bytes before the
first '=' are not a valid non-negative decimal integer (a byte that is not a
digit, a sign included, or no byte at all), `parse` fails with an error; and
when `parse` succeeds, the bytes before the first '=' are such an integer and
`Tag()` is its value, which is not negative. -/
theorem parse_tag_decimal (atoi : Atoi) (hatoi : DecimalAtoi atoi) (tv : TagValue)
    (raw : List Byte) :
    (∀ i, raw[i]? = some sepByte → (∀ j, j < i → raw[j]? ≠ some sepByte) →
        ¬ isDecimal (raw.take i) →
        ∃ e, TagValue.parse atoi tv raw = some (tv, some e)) ∧
      (∀ tv', TagValue.parse atoi tv raw = some (tv', none) →
        ∃ i, raw[i]? = some sepByte ∧ (∀ j, j < i → raw[j]? ≠ some sepByte) ∧
          isDecimal (raw.take i) ∧ tv'.Tag = (decimalOf (raw.take i) : Int) ∧
          0 ≤ tv'.Tag) := by
  constructor
  · intro i hsep hfirst hbad
    by_cases hi : 1 ≤ i
    · obtain ⟨hlt, _⟩ := List.getElem?_eq_some.mp hsep
      obtain ⟨text, htext⟩ := (hatoi (raw.take i)).2 hbad
      rw [parse_of_first atoi tv raw i hi hsep hfirst, parseAt_eq atoi tv raw i hlt, htext]
      exact ⟨_, rfl⟩
    · have hi0 : i = 0 := by omega
      subst hi0
      rcases parse_outcome atoi tv raw with hres | ⟨k, hk1, hksep, hk⟩
      · exact hres
      · obtain ⟨hlt, _⟩ := List.getElem?_eq_some.mp hksep
        have hmem : sepByte ∈ raw.take k := by
          apply List.getElem?_mem (n := 0)
          rw [List.getElem?_take_of_lt (by omega)]
          exact hsep
        obtain ⟨text, htext⟩ := (hatoi (raw.take k)).2 (not_isDecimal_of_sep _ hmem)
        rw [hk, parseAt_eq atoi tv raw k hlt, htext]
        exact ⟨_, rfl⟩
  · intro tv' hok
    rcases parse_outcome atoi tv raw with ⟨e, he⟩ | ⟨k, hk1, hksep, hk⟩
    · rw [he] at hok
      simp at hok
    · obtain ⟨hlt, _⟩ := List.getElem?_eq_some.mp hksep
      rw [hk] at hok
      obtain ⟨_, _, _, hat⟩ := parseAt_success atoi tv tv' raw k hlt hok
      have hdec : isDecimal (raw.take k) := by
        by_contra hnot
        obtain ⟨text, htext⟩ := (hatoi (raw.take k)).2 hnot
        rw [htext] at hat
        cases hat
      have hval := (hatoi (raw.take k)).1 hdec
      rw [hval] at hat
      have htag : tv'.tag = (decimalOf (raw.take k) : Int) := by
        injection hat with h
        exact h.symm
      refine ⟨k, hksep, ?_, hdec, htag, ?_⟩
      · intro j hj hjsep
        have hmem : sepByte ∈ raw.take k := by
          apply List.getElem?_mem (n := j)
          rw [List.getElem?_take_of_lt hj]
          exact hjsep
        exact not_isDecimal_of_sep _ hmem hdec
      · show 0 ≤ tv'.tag
        rw [htag]
        exact Int.ofNat_nonneg _

/-- With the modelled `atoi`: the field "-5=A" with its delimiter, whose tag
bytes begin with a sign, is refused with the error of `atoi`; the field
"35=A" with its delimiter parses with the tag 35. -/
theorem parse_tag_decimal_witness :
    DecimalAtoi atoi ∧
      TagValue.parse atoi ⟨0, [], []⟩ [45, 53, 61, 65, 1] =
        some (⟨0, [], []⟩, some (.badTag "invalid format")) ∧
      (∃ e, TagValue.parse atoi ⟨0, [], []⟩ [45, 53, 61, 65, 1] = some (⟨0, [], []⟩, some e)) ∧
      (∃ i, ([51, 53, 61, 65, 1] : List Byte)[i]? = some sepByte ∧
        (∀ j, j < i → ([51, 53, 61, 65, 1] : List Byte)[j]? ≠ some sepByte) ∧
        isDecimal (([51, 53, 61, 65, 1] : List Byte).take i) ∧
        TagValue.Tag ⟨35, [65], [51, 53, 61, 65, 1]⟩ =
          (decimalOf (([51, 53, 61, 65, 1] : List Byte).take i) : Int) ∧
        0 ≤ TagValue.Tag ⟨35, [65], [51, 53, 61, 65, 1]⟩) :=
  ⟨atoi_decimal, by decide,
    (parse_tag_decimal atoi atoi_decimal ⟨0, [], []⟩ [45, 53, 61, 65, 1]).1 2 (by decide)
      (fun j hj => by
        have hj' : j = 0 ∨ j = 1 := by omega
        rcases hj' with rfl | rfl <;> decide)
      (by decide),
    (parse_tag_decimal atoi atoi_decimal ⟨0, [], []⟩ [51, 53, 61, 65, 1]).2
      ⟨35, [65], [51, 53, 61, 65, 1]⟩ (by decide)⟩

/-- With `atoi` the decimal integer parser, a slice whose first byte is '='
never parses, whatever its length: `parse` returns an error, the "No tag" one
or the one of `atoi` on bytes that begin with '='. -/
theorem parse_fails_of_empty_tag (atoi : Atoi) (hatoi : DecimalAtoi atoi) (tv : TagValue)
    (raw : List Byte) (h0 : raw[0]? = some sepByte) :
    ∃ e, TagValue.parse atoi tv raw = some (tv, some e) := by
  rcases parse_outcome atoi tv raw with hres | ⟨k, hk1, hksep, hk⟩
  · exact hres
  · obtain ⟨hlt, _⟩ := List.getElem?_eq_some.mp hksep
    have hmem : sepByte ∈ raw.take k := by
      apply List.getElem?_mem (n := 0)
      rw [List.getElem?_take_of_lt (by omega)]
      exact h0
    obtain ⟨text, htext⟩ := (hatoi (raw.take k)).2 (not_isDecimal_of_sep _ hmem)
    rw [hk, parseAt_eq atoi tv raw k hlt, htext]
    exact ⟨_, rfl⟩

/-- With the modelled `atoi`, the five bytes "=1=ab" are refused. -/
theorem parse_fails_of_empty_tag_witness :
    DecimalAtoi atoi ∧ ([61, 49, 61, 97, 98] : List Byte)[0]? = some sepByte ∧
      ∃ e, TagValue.parse atoi ⟨0, [], []⟩ [61, 49, 61, 97, 98] =
        some (⟨0, [], []⟩, some e) :=
  ⟨atoi_decimal, by decide,
    parse_fails_of_empty_tag atoi atoi_decimal ⟨0, [], []⟩ [61, 49, 61, 97, 98] (by decide)⟩

/-! ## `init` then `parse` -/

/-- The digit loop puts in front of `acc` the digits of `u`, the most
significant one first, each as the byte of its character; 0 gives "0". -/
theorem formatBits_eq_digits : ∀ (fuel u : Nat) (acc : List Byte), u ≤ fuel →
    formatBits fuel u acc =
      (if u = 0 then [48] else (Nat.digits 10 u).reverse.map fun x => x + 48) ++ acc
  | 0, u, acc, h => by
    have hu : u = 0 := by omega
    subst hu
    simp [formatBits]
  | fuel + 1, u, acc, h => by
    by_cases h10 : 10 ≤ u
    · have hne : u / 10 ≠ 0 := by omega
      have hu0 : u ≠ 0 := by omega
      have ih := formatBits_eq_digits fuel (u / 10) ((u % 10 + 48) :: acc) (by omega)
      rw [formatBits, if_pos h10, ih, if_neg hne, if_neg hu0,
        Nat.digits_def' (by omega : 1 < 10) (by omega : 0 < u)]
      simp
    · rw [formatBits, if_neg h10]
      by_cases hu0 : u = 0
      · subst hu0
        simp
      · rw [if_neg hu0, Nat.digits_of_lt 10 u hu0 (by omega)]
        simp

/-- The decimal form of a natural number is a run of digits, and its decimal
value is the number. -/
theorem formatBits_decimal (n : Nat) :
    isDecimal (formatBits n n []) ∧ decimalOf (formatBits n n []) = n := by
  rw [formatBits_eq_digits n n [] (le_refl n)]
  by_cases h0 : n = 0
  · subst h0
    refine ⟨⟨by simp, ?_⟩, by simp [decimalOf]⟩
    intro b hb
    simp only [if_true, List.append_nil, List.mem_singleton] at hb
    subst hb
    exact ⟨le_refl _, by decide⟩
  · rw [if_neg h0, List.append_nil]
    refine ⟨⟨?_, ?_⟩, ?_⟩
    · intro hnil
      have hlen := congrArg List.length hnil
      simp only [List.length_map, List.length_reverse, List.length_nil] at hlen
      have hd : Nat.digits 10 n = [] := List.length_eq_zero.mp hlen
      exact h0 (Nat.digits_eq_nil_iff_eq_zero.mp hd)
    · intro b hb
      simp only [List.mem_map, List.mem_reverse] at hb
      obtain ⟨x, hx, rfl⟩ := hb
      have hlt : x < 10 := Nat.digits_lt_base (by omega) hx
      exact ⟨Nat.le_add_left 48 x, Nat.add_le_add_right (Nat.le_of_lt_succ hlt) 48⟩
    · unfold decimalOf
      have hmap : (List.map (fun b => b - 48)
          (List.map (fun x => x + 48) (Nat.digits 10 n).reverse).reverse) =
          Nat.digits 10 n := by
        rw [← List.map_reverse, List.reverse_reverse, List.map_map]
        have hid : ((fun b => b - 48) ∘ fun x => x + 48) = (id : Nat → Nat) := by
          funext x
          simp
        rw [hid, List.map_id]
      rw [hmap, Nat.ofDigits_digits]

/-- The modelled `atoi` reads back what `AppendInt` writes for an int that is
not negative. -/
theorem atoi_AppendInt (n : Nat) : atoi (AppendInt [] (n : Int)) = .ok (n : Int) := by
  have hform : AppendInt [] (n : Int) = formatBits n n [] := by
    unfold AppendInt
    rw [if_neg (by omega)]
    simp
  obtain ⟨hdec, hval⟩ := formatBits_decimal n
  rw [hform, (atoi_decimal (formatBits n n [])).1 hdec, hval]

/-- The decimal form of an int that is not negative is not empty and holds no '='. -/
theorem AppendInt_no_sep (n : Nat) :
    AppendInt [] (n : Int) ≠ [] ∧ sepByte ∉ AppendInt [] (n : Int) := by
  have hform : AppendInt [] (n : Int) = formatBits n n [] := by
    unfold AppendInt
    rw [if_neg (by omega)]
    simp
  obtain ⟨hdec, _⟩ := formatBits_decimal n
  rw [hform]
  exact ⟨hdec.1, fun hmem => not_isDecimal_of_sep _ hmem hdec⟩

/-- A field made of bytes with no '=', then '=', a value and one last byte:
where its first '=' is, and what lies on either side of it. -/
theorem field_shape (dec v : List Byte) (last : Byte) (hno : sepByte ∉ dec) :
    (dec ++ [sepByte] ++ v ++ [last])[dec.length]? = some sepByte ∧
      (∀ j, j < dec.length → (dec ++ [sepByte] ++ v ++ [last])[j]? ≠ some sepByte) ∧
      (dec ++ [sepByte] ++ v ++ [last]).take dec.length = dec ∧
      ((dec ++ [sepByte] ++ v ++ [last]).take
          ((dec ++ [sepByte] ++ v ++ [last]).length - 1)).drop (dec.length + 1) = v ∧
      dec.length + 2 ≤ (dec ++ [sepByte] ++ v ++ [last]).length := by
  have hassoc : dec ++ [sepByte] ++ v ++ [last] = dec ++ (sepByte :: (v ++ [last])) := by
    simp
  refine ⟨?_, ?_, ?_, ?_, ?_⟩
  · rw [hassoc, List.getElem?_append_right (le_refl _)]
    simp
  · intro j hj hjsep
    rw [hassoc, List.getElem?_append_left hj] at hjsep
    exact hno (List.getElem?_mem hjsep)
  · rw [hassoc]
    exact List.take_left' rfl
  · have hlen : (dec ++ [sepByte] ++ v ++ [last]).length - 1 =
        (dec ++ [sepByte] ++ v).length := by
      simp
    rw [hlen, List.take_left' rfl]
    have h2 : dec ++ [sepByte] ++ v = (dec ++ [sepByte]) ++ v := rfl
    rw [h2]
    exact List.drop_left' (by simp)
  · simp

/-- C19. With `atoi` reading back what `AppendInt` writes for the ints that
are not negative: for every tag `t ≥ 0` and every value `v`, the parse of the
wire bytes `init(t, v)` makes succeeds, with `Tag()` equal to `t`, `Value()`
equal to `v` and `String()` equal to those wire bytes. -/
theorem init_parse_roundtrip (atoi : Atoi)
    (hinv : ∀ n : Nat, atoi (AppendInt [] (n : Int)) = .ok (n : Int))
    (tv0 tv1 : TagValue) (t : Tag) (ht : 0 ≤ t) (v : List Byte) :
    ∃ tv', TagValue.parse atoi tv1 (TagValue.init tv0 t v).String = some (tv', none) ∧
      tv'.Tag = t ∧ tv'.Value = v ∧ tv'.String = (TagValue.init tv0 t v).String := by
  obtain ⟨n, rfl⟩ := Int.eq_ofNat_of_zero_le ht
  have hwire : (TagValue.init tv0 (n : Int) v).String =
      AppendInt [] (n : Int) ++ [sepByte] ++ v ++ [sohByte] := rfl
  obtain ⟨hne, hno⟩ := AppendInt_no_sep n
  obtain ⟨hsep, hfirst, htake, hvalue, hlen⟩ :=
    field_shape (AppendInt [] (n : Int)) v sohByte hno
  have hi : 1 ≤ (AppendInt [] (n : Int)).length := by
    cases hd : AppendInt [] (n : Int) with
    | nil => exact absurd hd hne
    | cons b rest => simp
  rw [hwire]
  refine ⟨{ tag := (n : Int), value := v,
            bytes := AppendInt [] (n : Int) ++ [sepByte] ++ v ++ [sohByte] }, ?_, rfl, rfl, rfl⟩
  rw [parse_of_first atoi tv1 _ (AppendInt [] (n : Int)).length hi hsep hfirst,
    parseAt_eq atoi tv1 _ (AppendInt [] (n : Int)).length (by omega), htake, hinv n]
  simp only
  rw [if_pos hlen, hvalue]

/-- With the modelled `atoi`: the wire bytes of `init(35, "A=B")` are
"35=A=B" and the byte 1, and their parse gives the tag 35, the value "A=B"
and the same wire bytes. -/
theorem init_parse_roundtrip_witness :
    (∀ n : Nat, atoi (AppendInt [] (n : Int)) = .ok (n : Int)) ∧
      (TagValue.init ⟨0, [], []⟩ 35 [65, 61, 66]).String = [51, 53, 61, 65, 61, 66, 1] ∧
      TagValue.parse atoi ⟨0, [], []⟩ (TagValue.init ⟨0, [], []⟩ 35 [65, 61, 66]).String =
        some (⟨35, [65, 61, 66], [51, 53, 61, 65, 61, 66, 1]⟩, none) ∧
      ∃ tv', TagValue.parse atoi ⟨0, [], []⟩ (TagValue.init ⟨0, [], []⟩ 35 [65, 61, 66]).String =
          some (tv', none) ∧
        tv'.Tag = 35 ∧ tv'.Value = [65, 61, 66] ∧
        tv'.String = (TagValue.init ⟨0, [], []⟩ 35 [65, 61, 66]).String :=
  ⟨atoi_AppendInt, by decide, by decide,
    init_parse_roundtrip atoi atoi_AppendInt ⟨0, [], []⟩ ⟨0, [], []⟩ 35 (by decide)
      [65, 61, 66]⟩

end quickfix
